import Mathlib

/-!
Verification development for the OblivionFilter traffic-filtering pipeline
(src/native/proxy/python-proxy/main.py).  The Python code is shallowly
embedded: dictionaries become association lists, sets become lists with
membership, `time.time()` becomes an explicit natural-number clock, and the
parts of the Python standard library the code relies on (`urllib.parse.urlparse`,
`str.lower`, the `re` module restricted to the constructs the repository uses,
UTF-8 decoding) are modelled explicitly.
-/

set_option maxRecDepth 40000

set_option linter.unusedVariables false

namespace Oblivion

/-- Python `dict` lookup `d.get(k)` for a dict modelled as an association list
with at most one entry per key (entries are only created via `dictSet`). -/
def dictGet {β : Type} (d : List (String × β)) (k : String) : Option β :=
  (d.find? (fun p => p.1 == k)).map (fun p => p.2)

/-- Python `d[k] = v`: overwrite the binding in place if the key is present
(association lists built by these operations have at most one binding per
key), else append a new binding at the end — matching `dict` insertion
order semantics. -/
def dictSet {β : Type} (d : List (String × β)) (k : String) (v : β) : List (String × β) :=
  match d with
  | [] => [(k, v)]
  | p :: rest => if p.1 == k then (k, v) :: rest else p :: dictSet rest k v

/-- Python truthiness of an optional string (`None` and `""` are falsy). -/
def truthyS : Option String → Bool
  | none => false
  | some s => !(s == "")

/-- Python truthiness of an optional dict (`None` and `{}` are falsy). -/
def truthyD : Option (List (String × String)) → Bool
  | none => false
  | some l => !l.isEmpty

/-- Modelled from Python `str.lower` restricted to ASCII (the only case the
filtering code exercises: URL authorities and HTTP methods). -/
def charLower (c : Char) : Char :=
  if 65 ≤ c.toNat ∧ c.toNat ≤ 90 then Char.ofNat (c.toNat + 32) else c

/-- Modelled from Python `str.upper` restricted to ASCII. -/
def charUpper (c : Char) : Char :=
  if 97 ≤ c.toNat ∧ c.toNat ≤ 122 then Char.ofNat (c.toNat - 32) else c

def pyLower (s : String) : String := String.mk (s.data.map charLower)

def pyUpper (s : String) : String := String.mk (s.data.map charUpper)

/-- Substring scan: does `sub` occur (as a contiguous block) in the list? -/
def hasInfixB {α : Type} [BEq α] (sub : List α) : List α → Bool
  | [] => sub.isEmpty
  | a :: rest => sub.isPrefixOf (a :: rest) || hasInfixB sub rest

/-- Python `sub in s` on strings: substring containment. -/
def strIn (sub s : String) : Bool := hasInfixB sub.data s.data

/-! ### urllib.parse.urlparse (modelled)

Only the `netloc` and `path` components are consumed by the filter engine, so
the model computes exactly those, following the splitting rules of
`urllib.parse.urlsplit`: an optional `scheme:` prefix (first character a
letter, rest letters/digits/`+`/`-`/`.`), a `//netloc` part running to the
first `/`, `?` or `#`, and a path running to the first `?` or `#`. -/

def isSchemeTailChar (c : Char) : Bool :=
  c.isAlpha || c.isDigit || c == '+' || c == '-' || c == '.'

/-- Split a character list at the first occurrence of `c`. -/
def splitFirst (c : Char) : List Char → Option (List Char × List Char)
  | [] => none
  | a :: rest =>
    if a == c then some ([], rest)
    else (splitFirst c rest).map (fun p => (a :: p.1, p.2))

/-- Longest prefix not containing any stop character, plus the remainder. -/
def takeUntilAny (stops : List Char) : List Char → List Char × List Char
  | [] => ([], [])
  | a :: rest =>
    if stops.contains a then ([], a :: rest)
    else
      let p := takeUntilAny stops rest
      (a :: p.1, p.2)

structure UrlParts where
  scheme : String
  netloc : String
  path : String
deriving Repr, DecidableEq

def urlparse (url : String) : UrlParts :=
  let cs := url.data
  let schemeRest : List Char × List Char :=
    match splitFirst ':' cs with
    | some (before, after) =>
      match before with
      | [] => ([], cs)
      | c :: tail =>
        if c.isAlpha && tail.all isSchemeTailChar then (before, after) else ([], cs)
    | none => ([], cs)
  let netlocRest : List Char × List Char :=
    match schemeRest.2 with
    | '/' :: '/' :: r => takeUntilAny ['/', '?', '#'] r
    | r => ([], r)
  let beforeFrag := (takeUntilAny ['#'] netlocRest.2).1
  let path := (takeUntilAny ['?'] beforeFrag).1
  { scheme := String.mk (schemeRest.1.map charLower)
    netloc := String.mk netlocRest.1
    path := String.mk path }

/-! ### Python `re` (modelled subset)

`add_rule` compiles every pattern containing a regex metacharacter with
`re.IGNORECASE`.  The model supports the constructs the repository's patterns
use: literal characters, `.`, `\`-escapes of non-alphanumeric characters, a
postfix `*`, a leading `^` and a trailing `$`.  Anything else makes
`compileRe` return `none`, which `add_rule` treats like `re.error`
(the rule is simply not regex-indexed). -/

inductive RTok where
  | dot : RTok
  | lit : Char → RTok
deriving Repr, DecidableEq

structure RE where
  anchorStart : Bool
  toks : List (RTok × Bool)
  anchorEnd : Bool
deriving Repr, DecidableEq

def regexMetaChars : List Char :=
  ['.', '*', '+', '?', '^', '$', '\x7b', '\x7d', '(', ')', '|', '[', ']', '\\']

def hasRegexMeta (p : String) : Bool :=
  p.data.any (fun c => regexMetaChars.contains c)

/-- Characters that the modelled parser rejects when unescaped (beyond the
handled `.`, `*`, leading `^`, trailing `$`). -/
def reUnsupported (c : Char) : Bool :=
  c == '*' || c == '+' || c == '?' || c == '^' || c == '$' ||
  c == '(' || c == ')' || c == '|' || c == '[' || c == ']' || c == '\x7b' || c == '\x7d'

def escOK (c : Char) : Bool := !(c.isAlpha || c.isDigit)

def reParse : List Char → Option (List (RTok × Bool) × Bool)
  | [] => some ([], false)
  | ['$'] => some ([], true)
  | '\\' :: [] => none
  | '\\' :: d :: '*' :: rest =>
    if escOK d then (reParse rest).map (fun p => ((RTok.lit d, true) :: p.1, p.2)) else none
  | '\\' :: d :: rest =>
    if escOK d then (reParse rest).map (fun p => ((RTok.lit d, false) :: p.1, p.2)) else none
  | '.' :: '*' :: rest => (reParse rest).map (fun p => ((RTok.dot, true) :: p.1, p.2))
  | '.' :: rest => (reParse rest).map (fun p => ((RTok.dot, false) :: p.1, p.2))
  | c :: '*' :: rest =>
    if reUnsupported c then none
    else (reParse rest).map (fun p => ((RTok.lit c, true) :: p.1, p.2))
  | c :: rest =>
    if reUnsupported c then none
    else (reParse rest).map (fun p => ((RTok.lit c, false) :: p.1, p.2))

def compileRe (pattern : String) : Option RE :=
  match pattern.data with
  | '^' :: rest => (reParse rest).map (fun p => ⟨true, p.1, p.2⟩)
  | cs => (reParse cs).map (fun p => ⟨false, p.1, p.2⟩)

/-- Case-insensitive single-token match (`re.IGNORECASE`; `.` matches any
character except a newline). -/
def tokMatches (t : RTok) (c : Char) : Bool :=
  match t with
  | RTok.dot => !(c == '\n')
  | RTok.lit a => charLower a == charLower c

/-- Match zero or more repetitions of `t` followed by the continuation
`matchRest` (backtracking, existence semantics). -/
def matchStar (t : RTok) (matchRest : List Char → Bool) : List Char → Bool
  | [] => matchRest []
  | c :: s2 => matchRest (c :: s2) || (tokMatches t c && matchStar t matchRest s2)

def matchToks (toks : List (RTok × Bool)) (s : List Char) (endAnchor : Bool) : Bool :=
  match toks, s with
  | [], s => !endAnchor || s.isEmpty
  | (_, false) :: _, [] => false
  | (t, false) :: rest, c :: s2 => tokMatches t c && matchToks rest s2 endAnchor
  | (t, true) :: rest, s => matchStar t (fun s2 => matchToks rest s2 endAnchor) s

def reSearchAux (toks : List (RTok × Bool)) (endA : Bool) : List Char → Bool
  | [] => matchToks toks [] endA
  | c :: rest => matchToks toks (c :: rest) endA || reSearchAux toks endA rest

/-- `regex.search(s)` for a pattern compiled with `re.IGNORECASE`. -/
def reSearch (r : RE) (s : String) : Bool :=
  if r.anchorStart then matchToks r.toks s.data r.anchorEnd
  else reSearchAux r.toks r.anchorEnd s.data

/-! ### FilterRule and FilterEngine (main.py lines 47-259) -/

structure FilterRule where
  pattern : String
  action : String
  domain : Option String := none
  path : Option String := none
  method : Option String := none
  content_type : Option String := none
  headers : Option (List (String × String)) := none
  priority : Int := 0
  enabled : Bool := true
  description : String := ""
deriving Repr, DecidableEq

structure FilterEngine where
  rules : List FilterRule := []
  domain_rules : List (String × List FilterRule) := []
  path_rules : List (String × List FilterRule) := []
  regex_rules : List (RE × FilterRule) := []
  whitelist_domains : List String := []
  blacklist_domains : List String := []
  cache : List (String × Bool) := []
  cache_ttl : Nat := 300
  cache_expiry : List (String × Nat) := []
deriving Repr, DecidableEq

/-- Step of `add_rule`: index under `rule.domain` when truthy
(`if rule.domain: ... self.domain_rules[rule.domain].append(rule)`). -/
def add_rule_domain (e : FilterEngine) (rule : FilterRule) : FilterEngine :=
  if truthyS rule.domain then
    match dictGet e.domain_rules (rule.domain.getD "") with
    | some l =>
      { e with domain_rules := dictSet e.domain_rules (rule.domain.getD "") (l ++ [rule]) }
    | none => { e with domain_rules := e.domain_rules ++ [(rule.domain.getD "", [rule])] }
  else e

/-- Step of `add_rule`: index under `rule.path` when truthy. -/
def add_rule_path (e : FilterEngine) (rule : FilterRule) : FilterEngine :=
  if truthyS rule.path then
    match dictGet e.path_rules (rule.path.getD "") with
    | some l =>
      { e with path_rules := dictSet e.path_rules (rule.path.getD "") (l ++ [rule]) }
    | none => { e with path_rules := e.path_rules ++ [(rule.path.getD "", [rule])] }
  else e

/-- Step of `add_rule`: compile-and-index patterns containing a regex
metacharacter; compilation failure is logged and the rule is not
regex-indexed. -/
def add_rule_regex (e : FilterEngine) (rule : FilterRule) : FilterEngine :=
  if hasRegexMeta rule.pattern then
    match compileRe rule.pattern with
    | some r => { e with regex_rules := e.regex_rules ++ [(r, rule)] }
    | none => e
  else e

/-- `FilterEngine.add_rule` (main.py lines 152-174): append to the ordered
rule list, then run the three indexing steps in source order. -/
def add_rule (e : FilterEngine) (rule : FilterRule) : FilterEngine :=
  add_rule_regex (add_rule_path (add_rule_domain { e with rules := e.rules ++ [rule] } rule) rule) rule

/-- `FilterEngine._match_rule` (main.py lines 237-254).  Note the Python
truthiness guards: a `None`/empty constraint is skipped, and the header
constraint is only enforced when the caller-supplied headers are themselves
truthy (non-`None` and non-empty). -/
def match_rule (rule : FilterRule) (url : String) (method : String)
    (headers : Option (List (String × String))) (content_type : Option String) : Bool :=
  if !rule.enabled then false
  else if truthyS rule.method && !(pyUpper (rule.method.getD "") == pyUpper method) then false
  else if truthyS rule.content_type && truthyS content_type &&
      !(strIn (rule.content_type.getD "") (content_type.getD "")) then false
  else if truthyD rule.headers && truthyD headers then
    (rule.headers.getD []).all (fun kv => dictGet (headers.getD []) kv.1 == some kv.2)
  else true

/-- `FilterEngine._update_cache` (main.py lines 256-259). -/
def update_cache (e : FilterEngine) (now : Nat) (key : String) (result : Bool) : FilterEngine :=
  { e with cache := dictSet e.cache key result
           cache_expiry := dictSet e.cache_expiry key (now + e.cache_ttl) }

/-- The cache test of `should_block` (main.py lines 185-188): the key is
present and the current time is before its recorded expiry (missing expiry
defaults to 0). -/
def cacheHit (e : FilterEngine) (now : Nat) (key : String) : Bool :=
  (dictGet e.cache key).isSome && decide (now < (dictGet e.cache_expiry key).getD 0)

/-- `FilterEngine.should_block` (main.py lines 176-235).  `time.time()` is the
explicit `now` argument.  Returns the `(blocked, matched-rule)` pair together
with the updated engine state. -/
def should_block (e : FilterEngine) (now : Nat) (url : String) (method : String)
    (headers : Option (List (String × String))) (content_type : Option String) :
    (Bool × Option FilterRule) × FilterEngine :=
  let domain := pyLower (urlparse url).netloc
  let path := (urlparse url).path
  let cache_key := method ++ ":" ++ url
  if cacheHit e now cache_key then
    (((dictGet e.cache cache_key).getD false, none), e)
  else if e.whitelist_domains.contains domain then
    ((false, none), update_cache e now cache_key false)
  else if e.blacklist_domains.contains domain then
    ((true, none), update_cache e now cache_key true)
  else
    match ((dictGet e.domain_rules domain).getD []).find?
        (fun r => match_rule r url method headers content_type) with
    | some rule =>
      let action := rule.action == "block"
      ((action, some rule), update_cache e now cache_key action)
    | none =>
      match ((dictGet e.path_rules path).getD []).find?
          (fun r => match_rule r url method headers content_type) with
      | some rule =>
        let action := rule.action == "block"
        ((action, some rule), update_cache e now cache_key action)
      | none =>
        match e.regex_rules.find?
            (fun rr => reSearch rr.1 url && match_rule rr.2 url method headers content_type) with
        | some rr =>
          let action := rr.2.action == "block"
          ((action, some rr.2), update_cache e now cache_key action)
        | none =>
          match e.rules.find? (fun r =>
              !(truthyS r.domain || truthyS r.path || hasRegexMeta r.pattern) &&
              strIn r.pattern url && match_rule r url method headers content_type) with
          | some rule =>
            let action := rule.action == "block"
            ((action, some rule), update_cache e now cache_key action)
          | none => ((false, none), update_cache e now cache_key false)

/-- Administrative mutations that can happen between two `should_block`
calls.  `addRule` is `FilterEngine.add_rule`; the whitelist/blacklist
additions are modelled from the spec: the control channel exposes
`whitelistDomain(domain)` / `blacklistDomain(domain)` (the repository's
`native_host.py` implementations are logging stubs), and the natural effect
on the engine is insertion into the corresponding domain set. -/
inductive AdminOp where
  | addRule : FilterRule → AdminOp
  | whitelistDomain : String → AdminOp
  | blacklistDomain : String → AdminOp

def applyOp (e : FilterEngine) : AdminOp → FilterEngine
  | AdminOp.addRule r => add_rule e r
  | AdminOp.whitelistDomain d => { e with whitelist_domains := e.whitelist_domains ++ [d] }
  | AdminOp.blacklistDomain d => { e with blacklist_domains := e.blacklist_domains ++ [d] }

def applyOps (e : FilterEngine) (ops : List AdminOp) : FilterEngine :=
  ops.foldl applyOp e

/-! ### Generic substring machinery (for Python `str.replace(..., 1)` and
occurrence counting over the content rewriter's output) -/

/-- `pat` occurs in `s` at position `p`. -/
def occursAt {α : Type} (pat s : List α) (p : Nat) : Prop := pat <+: s.drop p

/-- Number of positions of `s` at which `pat` occurs. -/
def countOccur {α : Type} [DecidableEq α] (pat s : List α) : Nat :=
  (List.range (s.length + 1)).countP (fun p => decide (pat <+: s.drop p))

/-- Indices (counting from `i`) at which `c` occurs in the list; a one-pass
scan used to localize potential overlap positions cheaply. -/
def idxsFrom {α : Type} [DecidableEq α] (c : α) : Nat → List α → List Nat
  | _, [] => []
  | i, a :: t => if a = c then i :: idxsFrom c (i + 1) t else idxsFrom c (i + 1) t

/-- Python `s.replace(pat, repl, 1)`: replace the first (leftmost)
occurrence of `pat` in `s` with `repl`; leave `s` unchanged when `pat` does
not occur. -/
def replaceFirstL {α : Type} [DecidableEq α] (pat repl : List α) : List α → List α
  | [] => if pat.isPrefixOf [] then repl ++ ([] : List α).drop pat.length else []
  | c :: t =>
    if pat.isPrefixOf (c :: t) then repl ++ (c :: t).drop pat.length
    else c :: replaceFirstL pat repl t

/-! ### mitmproxy request headers and `_add_stealth_headers`

`flow.request.headers` is a case-insensitive header mapping; the model keeps
names as supplied, compares them ASCII-case-insensitively, and treats each
name as single-valued (the addon code reads and writes single values only).
-/

def ciEq (a b : String) : Bool := pyLower a == pyLower b

/-- `headers[k]` / `k in headers` lookup (first binding wins). -/
def hGet (hs : List (String × String)) (k : String) : Option String :=
  (hs.find? (fun p => ciEq p.1 k)).map (fun p => p.2)

def hContains (hs : List (String × String)) (k : String) : Bool := (hGet hs k).isSome

/-- `del headers[k]`: remove every binding whose name matches `k`. -/
def hDel (hs : List (String × String)) (k : String) : List (String × String) :=
  hs.filter (fun p => !ciEq p.1 k)

/-- `headers[k] = v`: overwrite the first matching binding, else append. -/
def hSet (hs : List (String × String)) (k v : String) : List (String × String) :=
  match hs with
  | [] => [(k, v)]
  | p :: rest => if ciEq p.1 k then (p.1, v) :: rest else p :: hSet rest k v

/-- `if k not in headers: headers[k] = v`. -/
def condSet (hs : List (String × String)) (k v : String) : List (String × String) :=
  if hContains hs k then hs else hSet hs k v

def headersToRemove : List String :=
  ["proxy-connection", "proxy-authorization", "x-forwarded-for", "x-real-ip", "via"]

def defaultUserAgent : String :=
  "Mozilla/5.0 (Windows NT 10.0; Win64; x64) AppleWebKit/537.36 (KHTML, like Gecko) Chrome/120.0.0.0 Safari/537.36"

def defaultAccept : String :=
  "text/html,application/xhtml+xml,application/xml;q=0.9,image/webp,*/*;q=0.8"

def defaultAcceptLanguage : String := "en-US,en;q=0.5"

def defaultAcceptEncoding : String := "gzip, deflate"

/-- The `for header in headers_to_remove: if header in ...: del ...` loop. -/
def stripProxyHeaders (hs : List (String × String)) : List (String × String) :=
  headersToRemove.foldl (fun h k => if hContains h k then hDel h k else h) hs

/-- `OblivionFilterAddon._add_stealth_headers` (main.py lines 471-507):
strip the five proxy-identifying headers, fill in four browser-like headers
only when absent, then unconditionally set `dnt`, `connection` and
`upgrade-insecure-requests`. -/
def add_stealth_headers (hs : List (String × String)) : List (String × String) :=
  hSet (hSet (hSet
    (condSet (condSet (condSet (condSet (stripProxyHeaders hs)
          "user-agent" defaultUserAgent)
        "accept" defaultAccept)
      "accept-language" defaultAcceptLanguage)
    "accept-encoding" defaultAcceptEncoding)
    "dnt" "1") "connection" "keep-alive") "upgrade-insecure-requests" "1"

/-- Header names touched by `_add_stealth_headers` (stripped or written). -/
def stealthTouchedNames : List String :=
  headersToRemove ++
    ["user-agent", "accept", "accept-language", "accept-encoding",
     "dnt", "connection", "upgrade-insecure-requests"]

/-! ### UTF-8 codec (modelled from Python `bytes.decode("utf-8")` /
`str.encode("utf-8")`)

Bytes are naturals below 256 and decoded text is the list of Unicode code
points.  The decoder is strict exactly like Python's: continuation bytes
must be `80..BF`, overlong encodings, surrogates (`ED A0..`) and code points
above `10FFFF` are rejected, and any failure rejects the whole input. -/

/-- Valid two-byte sequence: lead `C2..DF`, continuation `80..BF` (leads
`C0`/`C1` would be overlong and are invalid). -/
def utf8SeqTwo (b b1 : Nat) : Prop := (0xC2 ≤ b ∧ b ≤ 0xDF) ∧ (0x80 ≤ b1 ∧ b1 ≤ 0xBF)

/-- Valid three-byte sequence: lead `E0..EF`, continuations `80..BF`, no
overlongs (`E0` needs `b1 ≥ A0`) and no surrogates (`ED` needs `b1 ≤ 9F`). -/
def utf8SeqThree (b b1 b2 : Nat) : Prop :=
  (0xE0 ≤ b ∧ b ≤ 0xEF) ∧ (0x80 ≤ b1 ∧ b1 ≤ 0xBF) ∧ (0x80 ≤ b2 ∧ b2 ≤ 0xBF) ∧
    (b = 0xE0 → 0xA0 ≤ b1) ∧ (b = 0xED → b1 ≤ 0x9F)

/-- Valid four-byte sequence: lead `F0..F4`, continuations `80..BF`, no
overlongs (`F0` needs `b1 ≥ 90`) and nothing above `10FFFF` (`F4` needs
`b1 ≤ 8F`). -/
def utf8SeqFour (b b1 b2 b3 : Nat) : Prop :=
  (0xF0 ≤ b ∧ b ≤ 0xF4) ∧ (0x80 ≤ b1 ∧ b1 ≤ 0xBF) ∧ (0x80 ≤ b2 ∧ b2 ≤ 0xBF) ∧
    (0x80 ≤ b3 ∧ b3 ≤ 0xBF) ∧ (b = 0xF0 → 0x90 ≤ b1) ∧ (b = 0xF4 → b1 ≤ 0x8F)

instance (b b1 : Nat) : Decidable (utf8SeqTwo b b1) :=
  inferInstanceAs (Decidable (_ ∧ _))

instance (b b1 b2 : Nat) : Decidable (utf8SeqThree b b1 b2) :=
  inferInstanceAs (Decidable (_ ∧ _))

instance (b b1 b2 b3 : Nat) : Decidable (utf8SeqFour b b1 b2 b3) :=
  inferInstanceAs (Decidable (_ ∧ _))

def scalar2 (b b1 : Nat) : Nat := (b - 0xC0) * 64 + (b1 - 0x80)

def scalar3 (b b1 b2 : Nat) : Nat := (b - 0xE0) * 4096 + (b1 - 0x80) * 64 + (b2 - 0x80)

def scalar4 (b b1 b2 b3 : Nat) : Nat :=
  (b - 0xF0) * 262144 + (b1 - 0x80) * 4096 + (b2 - 0x80) * 64 + (b3 - 0x80)

/-- The lead-byte ranges of the one-, two-, three- and four-byte branches
are pairwise disjoint, so testing them in sequence against the available
bytes matches Python's per-sequence decoding exactly; any byte that fits no
branch (invalid lead, truncated sequence, bad continuation) rejects the
whole input, as Python's strict decoder does. -/
def utf8Decode : List Nat → Option (List Nat)
  | [] => some []
  | b :: ([] : List Nat) =>
    if b < 0x80 then (utf8Decode []).map (fun cs => b :: cs) else none
  | b :: b1 :: ([] : List Nat) =>
    if b < 0x80 then (utf8Decode [b1]).map (fun cs => b :: cs)
    else if utf8SeqTwo b b1 then (utf8Decode []).map (fun cs => scalar2 b b1 :: cs)
    else none
  | b :: b1 :: b2 :: ([] : List Nat) =>
    if b < 0x80 then (utf8Decode [b1, b2]).map (fun cs => b :: cs)
    else if utf8SeqTwo b b1 then (utf8Decode [b2]).map (fun cs => scalar2 b b1 :: cs)
    else if utf8SeqThree b b1 b2 then (utf8Decode []).map (fun cs => scalar3 b b1 b2 :: cs)
    else none
  | b :: b1 :: b2 :: b3 :: rest =>
    if b < 0x80 then (utf8Decode (b1 :: b2 :: b3 :: rest)).map (fun cs => b :: cs)
    else if utf8SeqTwo b b1 then (utf8Decode (b2 :: b3 :: rest)).map (fun cs => scalar2 b b1 :: cs)
    else if utf8SeqThree b b1 b2 then
      (utf8Decode (b3 :: rest)).map (fun cs => scalar3 b b1 b2 :: cs)
    else if utf8SeqFour b b1 b2 b3 then
      (utf8Decode rest).map (fun cs => scalar4 b b1 b2 b3 :: cs)
    else none

def utf8EncodeChar (c : Nat) : List Nat :=
  if c < 0x80 then [c]
  else if c < 0x800 then [0xC0 + c / 64, 0x80 + c % 64]
  else if c < 0x10000 then [0xE0 + c / 4096, 0x80 + (c / 64) % 64, 0x80 + c % 64]
  else [0xF0 + c / 262144, 0x80 + (c / 4096) % 64, 0x80 + (c / 64) % 64, 0x80 + c % 64]

def utf8Encode : List Nat → List Nat
  | [] => []
  | c :: cs => utf8EncodeChar c ++ utf8Encode cs

/-- Code points of a Lean string literal (all literals used here are ASCII). -/
def sToCodes (s : String) : List Nat := s.data.map Char.toNat

/-! ### ContentProcessor (main.py lines 261-334) -/

def cosmetic_rules : List String :=
  [".advertisement", ".ad-banner", ".ad-container", "[id*=\x27ad\x27]",
   "[class*=\x27ad\x27]", "#ads", ".ads", ".adsystem", ".googlesyndication",
   ".doubleclick", ".googletagmanager", ".facebook-tracking",
   ".twitter-tracking", ".analytics"]

def scriptlet_rules : List String :=
  ["window.google_tag_manager = undefined;",
   "window.ga = function()\x7b\x7d;",
   "window.gtag = function()\x7b\x7d;",
   "window._gaq = [];",
   "window.GoogleAnalyticsObject = undefined;",
   "window.fbq = function()\x7b\x7d;",
   "window._fbq = function()\x7b\x7d;",
   "window.twq = function()\x7b\x7d;",
   "console.log(\x27[OblivionFilter] Blocked tracking script\x27);"]

/-- `ContentProcessor._generate_cosmetic_css`. -/
def generate_cosmetic_css : String :=
  String.intercalate "\n"
    (cosmetic_rules.map (fun r => r ++ " \x7b display: none !important; \x7d"))

/-- `ContentProcessor._generate_scriptlet_js`. -/
def generate_scriptlet_js : String :=
  String.intercalate "\n" scriptlet_rules

def style_tag : String :=
  "<style type=\"text/css\">" ++ generate_cosmetic_css ++ "</style>"

def script_tag : String :=
  "<script type=\"text/javascript\">" ++ generate_scriptlet_js ++ "</script>"

def headCodes : List Nat := sToCodes "</head>"

def bodyOpenCodes : List Nat := sToCodes "<body"

def bodyCloseCodes : List Nat := sToCodes "</body>"

def styleTagCodes : List Nat := sToCodes style_tag

def scriptTagCodes : List Nat := sToCodes script_tag

/-- `styleTagCodes`, spelled out (proved equal in `styleTagList_eq`); used
so that the heavy computational checks below run on a constructor-form
list. -/
def styleTagList : List Nat :=
  [60, 115, 116, 121, 108, 101, 32, 116, 121, 112, 101, 61, 34, 116, 101, 120, 116, 47, 99, 
   115, 115, 34, 62, 46, 97, 100, 118, 101, 114, 116, 105, 115, 101, 109, 101, 110, 116, 32, 
   123, 32, 100, 105, 115, 112, 108, 97, 121, 58, 32, 110, 111, 110, 101, 32, 33, 105, 109, 
   112, 111, 114, 116, 97, 110, 116, 59, 32, 125, 10, 46, 97, 100, 45, 98, 97, 110, 110, 101, 
   114, 32, 123, 32, 100, 105, 115, 112, 108, 97, 121, 58, 32, 110, 111, 110, 101, 32, 33, 
   105, 109, 112, 111, 114, 116, 97, 110, 116, 59, 32, 125, 10, 46, 97, 100, 45, 99, 111, 110, 
   116, 97, 105, 110, 101, 114, 32, 123, 32, 100, 105, 115, 112, 108, 97, 121, 58, 32, 110, 
   111, 110, 101, 32, 33, 105, 109, 112, 111, 114, 116, 97, 110, 116, 59, 32, 125, 10, 91, 
   105, 100, 42, 61, 39, 97, 100, 39, 93, 32, 123, 32, 100, 105, 115, 112, 108, 97, 121, 58, 
   32, 110, 111, 110, 101, 32, 33, 105, 109, 112, 111, 114, 116, 97, 110, 116, 59, 32, 125, 
   10, 91, 99, 108, 97, 115, 115, 42, 61, 39, 97, 100, 39, 93, 32, 123, 32, 100, 105, 115, 
   112, 108, 97, 121, 58, 32, 110, 111, 110, 101, 32, 33, 105, 109, 112, 111, 114, 116, 97, 
   110, 116, 59, 32, 125, 10, 35, 97, 100, 115, 32, 123, 32, 100, 105, 115, 112, 108, 97, 121, 
   58, 32, 110, 111, 110, 101, 32, 33, 105, 109, 112, 111, 114, 116, 97, 110, 116, 59, 32, 
   125, 10, 46, 97, 100, 115, 32, 123, 32, 100, 105, 115, 112, 108, 97, 121, 58, 32, 110, 111, 
   110, 101, 32, 33, 105, 109, 112, 111, 114, 116, 97, 110, 116, 59, 32, 125, 10, 46, 97, 100, 
   115, 121, 115, 116, 101, 109, 32, 123, 32, 100, 105, 115, 112, 108, 97, 121, 58, 32, 110, 
   111, 110, 101, 32, 33, 105, 109, 112, 111, 114, 116, 97, 110, 116, 59, 32, 125, 10, 46, 
   103, 111, 111, 103, 108, 101, 115, 121, 110, 100, 105, 99, 97, 116, 105, 111, 110, 32, 123, 
   32, 100, 105, 115, 112, 108, 97, 121, 58, 32, 110, 111, 110, 101, 32, 33, 105, 109, 112, 
   111, 114, 116, 97, 110, 116, 59, 32, 125, 10, 46, 100, 111, 117, 98, 108, 101, 99, 108, 
   105, 99, 107, 32, 123, 32, 100, 105, 115, 112, 108, 97, 121, 58, 32, 110, 111, 110, 101, 
   32, 33, 105, 109, 112, 111, 114, 116, 97, 110, 116, 59, 32, 125, 10, 46, 103, 111, 111, 
   103, 108, 101, 116, 97, 103, 109, 97, 110, 97, 103, 101, 114, 32, 123, 32, 100, 105, 115, 
   112, 108, 97, 121, 58, 32, 110, 111, 110, 101, 32, 33, 105, 109, 112, 111, 114, 116, 97, 
   110, 116, 59, 32, 125, 10, 46, 102, 97, 99, 101, 98, 111, 111, 107, 45, 116, 114, 97, 99, 
   107, 105, 110, 103, 32, 123, 32, 100, 105, 115, 112, 108, 97, 121, 58, 32, 110, 111, 110, 
   101, 32, 33, 105, 109, 112, 111, 114, 116, 97, 110, 116, 59, 32, 125, 10, 46, 116, 119, 
   105, 116, 116, 101, 114, 45, 116, 114, 97, 99, 107, 105, 110, 103, 32, 123, 32, 100, 105, 
   115, 112, 108, 97, 121, 58, 32, 110, 111, 110, 101, 32, 33, 105, 109, 112, 111, 114, 116, 
   97, 110, 116, 59, 32, 125, 10, 46, 97, 110, 97, 108, 121, 116, 105, 99, 115, 32, 123, 32, 
   100, 105, 115, 112, 108, 97, 121, 58, 32, 110, 111, 110, 101, 32, 33, 105, 109, 112, 111, 
   114, 116, 97, 110, 116, 59, 32, 125, 60, 47, 115, 116, 121, 108, 101, 62]
/-- `scriptTagCodes`, spelled out (proved equal in `scriptTagList_eq`). -/
def scriptTagList : List Nat :=
  [60, 115, 99, 114, 105, 112, 116, 32, 116, 121, 112, 101, 61, 34, 116, 101, 120, 116, 47, 
   106, 97, 118, 97, 115, 99, 114, 105, 112, 116, 34, 62, 119, 105, 110, 100, 111, 119, 46, 
   103, 111, 111, 103, 108, 101, 95, 116, 97, 103, 95, 109, 97, 110, 97, 103, 101, 114, 32, 
   61, 32, 117, 110, 100, 101, 102, 105, 110, 101, 100, 59, 10, 119, 105, 110, 100, 111, 119, 
   46, 103, 97, 32, 61, 32, 102, 117, 110, 99, 116, 105, 111, 110, 40, 41, 123, 125, 59, 10, 
   119, 105, 110, 100, 111, 119, 46, 103, 116, 97, 103, 32, 61, 32, 102, 117, 110, 99, 116, 
   105, 111, 110, 40, 41, 123, 125, 59, 10, 119, 105, 110, 100, 111, 119, 46, 95, 103, 97, 
   113, 32, 61, 32, 91, 93, 59, 10, 119, 105, 110, 100, 111, 119, 46, 71, 111, 111, 103, 108, 
   101, 65, 110, 97, 108, 121, 116, 105, 99, 115, 79, 98, 106, 101, 99, 116, 32, 61, 32, 117, 
   110, 100, 101, 102, 105, 110, 101, 100, 59, 10, 119, 105, 110, 100, 111, 119, 46, 102, 98, 
   113, 32, 61, 32, 102, 117, 110, 99, 116, 105, 111, 110, 40, 41, 123, 125, 59, 10, 119, 105, 
   110, 100, 111, 119, 46, 95, 102, 98, 113, 32, 61, 32, 102, 117, 110, 99, 116, 105, 111, 
   110, 40, 41, 123, 125, 59, 10, 119, 105, 110, 100, 111, 119, 46, 116, 119, 113, 32, 61, 32, 
   102, 117, 110, 99, 116, 105, 111, 110, 40, 41, 123, 125, 59, 10, 99, 111, 110, 115, 111, 
   108, 101, 46, 108, 111, 103, 40, 39, 91, 79, 98, 108, 105, 118, 105, 111, 110, 70, 105, 
   108, 116, 101, 114, 93, 32, 66, 108, 111, 99, 107, 101, 100, 32, 116, 114, 97, 99, 107, 
   105, 110, 103, 32, 115, 99, 114, 105, 112, 116, 39, 41, 59, 60, 47, 115, 99, 114, 105, 112, 
   116, 62]


/-- Cosmetic-CSS injection step of `process_html` (lines 299-307): when the
generated CSS is non-empty, insert the style tag before the first
`</head>`, else before the first `<body`, else leave unchanged. -/
def injectStyle (codes : List Nat) : List Nat :=
  if generate_cosmetic_css = "" then codes
  else if hasInfixB headCodes codes then
    replaceFirstL headCodes (styleTagCodes ++ headCodes) codes
  else if hasInfixB bodyOpenCodes codes then
    replaceFirstL bodyOpenCodes (styleTagCodes ++ bodyOpenCodes) codes
  else codes

/-- Scriptlet injection step of `process_html` (lines 309-317): when the
generated JS is non-empty, insert the script tag before the first
`</body>`, else append it at the end. -/
def injectScript (codes : List Nat) : List Nat :=
  if generate_scriptlet_js = "" then codes
  else if hasInfixB bodyCloseCodes codes then
    replaceFirstL bodyCloseCodes (scriptTagCodes ++ bodyCloseCodes) codes
  else codes ++ scriptTagCodes

def processCodes (codes : List Nat) : List Nat := injectScript (injectStyle codes)

/-- `ContentProcessor.process_html` (main.py lines 294-323): decode as
UTF-8; on failure return the input bytes unchanged; otherwise inject the
cosmetic style tag and the scriptlet script tag and re-encode. -/
def process_html (content : List Nat) (url : String) : List Nat :=
  match utf8Decode content with
  | none => content
  | some codes => utf8Encode (processCodes codes)

/-! ### Concrete sample inputs used by counterexamples and witnesses -/

/-- A rule with both `domain` and `path` set. -/
def ruleDomAndPath : FilterRule :=
  { pattern := "p", action := "block", domain := some "d.com", path := some "/x" }

/-- Engine whose cache holds a verdict for `GET:http://a.com/` expiring at
time 5. -/
def engineStaleCache : FilterEngine :=
  { cache := [("GET:http://a.com/", false)], cache_expiry := [("GET:http://a.com/", 5)] }

/-- A rule demanding the header `x-token: v`. -/
def ruleNeedsHeader : FilterRule :=
  { pattern := "x", action := "block", headers := some [("x-token", "v")] }

/-- Engine with a whitelisted domain that is also blacklisted and covered by
a matching block rule. -/
def engineWlAndBl : FilterEngine :=
  add_rule { whitelist_domains := ["ads.example.com"], blacklist_domains := ["ads.example.com"] }
    { pattern := "ads.example.com", action := "block", domain := some "ads.example.com" }

/-- Engine with one blacklisted domain. -/
def engineBlOnly : FilterEngine := { blacklist_domains := ["ads.example.com"] }

/-- A pattern containing the metacharacter `.`, hence regex-classified. -/
def ruleRegexTier : FilterRule := { pattern := "tracker.com", action := "block" }

/-- A metacharacter-free pattern, hence literal-fallback-classified. -/
def ruleLiteralTier : FilterRule := { pattern := "trackerxcom", action := "block" }

def engineRegexTier : FilterEngine := add_rule {} ruleRegexTier

def engineLiteralTier : FilterEngine := add_rule {} ruleLiteralTier

/-- ASCII uppercase test used by C9. -/
def isUpperAscii (c : Char) : Bool := decide (65 ≤ c.toNat) && decide (c.toNat ≤ 90)

/-- The empty engine (all fields at their `__init__` defaults, no config). -/
def engineEmpty : FilterEngine := {}

/-- An ASCII HTML body containing both `</head>` and `</body>`, used by the
C8 witness; being ASCII, its byte sequence equals its code-point sequence. -/
def c8bytes : List Nat := sToCodes "<html><head></head><body>hi</body></html>"

/-! ## Lemmas -/

theorem dictGet_set_self {β : Type} (d : List (String × β)) (k : String) (v : β) :
    dictGet (dictSet d k v) k = some v := by
  induction d with
  | nil => simp [dictSet, dictGet]
  | cons p rest ih =>
    by_cases h : p.1 == k
    · simp [dictSet, h, dictGet]
    · simp [dictSet, h, dictGet, List.find?]
      simpa [dictGet] using ih

theorem dictGet_set_other {β : Type} (d : List (String × β)) (k k2 : String) (v : β)
    (h : (k == k2) = false) : dictGet (dictSet d k v) k2 = dictGet d k2 := by
  induction d with
  | nil => simp [dictSet, dictGet, List.find?, h]
  | cons p rest ih =>
    by_cases hp : p.1 == k
    · have hpk : p.1 = k := by simpa using hp
      simp [dictSet, hp, dictGet, List.find?, h, hpk]
    · by_cases hp2 : p.1 == k2
      · simp [dictSet, hp, dictGet, List.find?, hp2]
      · simp [dictSet, hp, dictGet, List.find?, hp2]
        simpa [dictGet] using ih

theorem dictGet_append_right {β : Type} (d : List (String × β)) (k : String) (v : β)
    (h : dictGet d k = none) : dictGet (d ++ [(k, v)]) k = some v := by
  induction d with
  | nil => simp [dictGet, List.find?]
  | cons p rest ih =>
    by_cases hp : p.1 == k
    · simp [dictGet, List.find?, hp] at h
    · simp [dictGet, List.find?, hp] at h ⊢
      simpa [dictGet] using ih (by simpa [dictGet] using h)

theorem truthyD_false_getD (o : Option (List (String × String))) (h : truthyD o = false) :
    o.getD [] = [] := by
  cases o with
  | none => rfl
  | some l => cases l <;> simp_all [truthyD]

theorem add_rule_domain_of_falsy (e : FilterEngine) (r : FilterRule)
    (h : truthyS r.domain = false) : add_rule_domain e r = e := by
  unfold add_rule_domain
  simp [h]

theorem add_rule_domain_of_truthy (e : FilterEngine) (r : FilterRule)
    (h : truthyS r.domain = true) :
    dictGet (add_rule_domain e r).domain_rules (r.domain.getD "") =
      some ((dictGet e.domain_rules (r.domain.getD "")).getD [] ++ [r]) := by
  unfold add_rule_domain
  rw [if_pos h]
  cases hd : dictGet e.domain_rules (r.domain.getD "") with
  | some l => simpa [hd] using dictGet_set_self e.domain_rules (r.domain.getD "") (l ++ [r])
  | none => simpa [hd] using dictGet_append_right e.domain_rules (r.domain.getD "") [r] hd

theorem add_rule_path_of_falsy (e : FilterEngine) (r : FilterRule)
    (h : truthyS r.path = false) : add_rule_path e r = e := by
  unfold add_rule_path
  simp [h]

theorem add_rule_path_of_truthy (e : FilterEngine) (r : FilterRule)
    (h : truthyS r.path = true) :
    dictGet (add_rule_path e r).path_rules (r.path.getD "") =
      some ((dictGet e.path_rules (r.path.getD "")).getD [] ++ [r]) := by
  unfold add_rule_path
  rw [if_pos h]
  cases hd : dictGet e.path_rules (r.path.getD "") with
  | some l => simpa [hd] using dictGet_set_self e.path_rules (r.path.getD "") (l ++ [r])
  | none => simpa [hd] using dictGet_append_right e.path_rules (r.path.getD "") [r] hd

theorem add_rule_regex_of_nometa (e : FilterEngine) (r : FilterRule)
    (h : hasRegexMeta r.pattern = false) : add_rule_regex e r = e := by
  unfold add_rule_regex
  simp [h]

theorem add_rule_regex_of_compiled (e : FilterEngine) (r : FilterRule) (re : RE)
    (hm : hasRegexMeta r.pattern = true) (hc : compileRe r.pattern = some re) :
    (add_rule_regex e r).regex_rules = e.regex_rules ++ [(re, r)] := by
  unfold add_rule_regex
  simp [hm, hc]

theorem add_rule_regex_of_failed (e : FilterEngine) (r : FilterRule)
    (hc : compileRe r.pattern = none) : add_rule_regex e r = e := by
  unfold add_rule_regex
  split
  · simp [hc]
  · rfl

theorem add_rule_domain_keeps (e : FilterEngine) (r : FilterRule) :
    (add_rule_domain e r).path_rules = e.path_rules ∧
    (add_rule_domain e r).regex_rules = e.regex_rules ∧
    (add_rule_domain e r).rules = e.rules := by
  unfold add_rule_domain
  repeat' split
  all_goals simp

theorem add_rule_path_keeps (e : FilterEngine) (r : FilterRule) :
    (add_rule_path e r).domain_rules = e.domain_rules ∧
    (add_rule_path e r).regex_rules = e.regex_rules ∧
    (add_rule_path e r).rules = e.rules := by
  unfold add_rule_path
  repeat' split
  all_goals simp

theorem add_rule_regex_keeps (e : FilterEngine) (r : FilterRule) :
    (add_rule_regex e r).domain_rules = e.domain_rules ∧
    (add_rule_regex e r).path_rules = e.path_rules ∧
    (add_rule_regex e r).rules = e.rules := by
  unfold add_rule_regex
  repeat' split
  all_goals simp

theorem add_rule_domain_frame (e : FilterEngine) (r : FilterRule) :
    (add_rule_domain e r).cache = e.cache ∧
    (add_rule_domain e r).cache_expiry = e.cache_expiry ∧
    (add_rule_domain e r).cache_ttl = e.cache_ttl := by
  unfold add_rule_domain
  repeat' split
  all_goals simp

theorem add_rule_path_frame (e : FilterEngine) (r : FilterRule) :
    (add_rule_path e r).cache = e.cache ∧
    (add_rule_path e r).cache_expiry = e.cache_expiry ∧
    (add_rule_path e r).cache_ttl = e.cache_ttl := by
  unfold add_rule_path
  repeat' split
  all_goals simp

theorem add_rule_regex_frame (e : FilterEngine) (r : FilterRule) :
    (add_rule_regex e r).cache = e.cache ∧
    (add_rule_regex e r).cache_expiry = e.cache_expiry ∧
    (add_rule_regex e r).cache_ttl = e.cache_ttl := by
  unfold add_rule_regex
  repeat' split
  all_goals simp

theorem add_rule_cache (e : FilterEngine) (r : FilterRule) :
    (add_rule e r).cache = e.cache ∧ (add_rule e r).cache_expiry = e.cache_expiry ∧
    (add_rule e r).cache_ttl = e.cache_ttl := by
  unfold add_rule
  have h0 : ({ e with rules := e.rules ++ [r] } : FilterEngine).cache = e.cache ∧
      ({ e with rules := e.rules ++ [r] } : FilterEngine).cache_expiry = e.cache_expiry ∧
      ({ e with rules := e.rules ++ [r] } : FilterEngine).cache_ttl = e.cache_ttl := by simp
  have h1 := add_rule_domain_frame { e with rules := e.rules ++ [r] } r
  have h2 := add_rule_path_frame (add_rule_domain { e with rules := e.rules ++ [r] } r) r
  have h3 := add_rule_regex_frame
    (add_rule_path (add_rule_domain { e with rules := e.rules ++ [r] } r) r) r
  refine ⟨?_, ?_, ?_⟩
  · exact h3.1.trans (h2.1.trans (h1.1.trans h0.1))
  · exact h3.2.1.trans (h2.2.1.trans (h1.2.1.trans h0.2.1))
  · exact h3.2.2.trans (h2.2.2.trans (h1.2.2.trans h0.2.2))

theorem applyOp_cache (e : FilterEngine) (op : AdminOp) :
    (applyOp e op).cache = e.cache ∧ (applyOp e op).cache_expiry = e.cache_expiry ∧
    (applyOp e op).cache_ttl = e.cache_ttl := by
  cases op with
  | addRule r => exact add_rule_cache e r
  | whitelistDomain d => simp [applyOp]
  | blacklistDomain d => simp [applyOp]

theorem applyOps_cache (e : FilterEngine) (ops : List AdminOp) :
    (applyOps e ops).cache = e.cache ∧ (applyOps e ops).cache_expiry = e.cache_expiry := by
  induction ops generalizing e with
  | nil => simp [applyOps]
  | cons op rest ih =>
    have h1 := applyOp_cache e op
    have h2 := ih (applyOp e op)
    simp only [applyOps, List.foldl] at h2 ⊢
    exact ⟨h2.1.trans h1.1, h2.2.trans h1.2.1⟩

/-- On a cache miss, `should_block` stores its verdict under the cache key
with expiry `now + cache_ttl`. -/
theorem should_block_stores (e : FilterEngine) (now : Nat) (url method : String)
    (headers : Option (List (String × String))) (content_type : Option String)
    (hmiss : cacheHit e now (method ++ ":" ++ url) = false) :
    dictGet (should_block e now url method headers content_type).2.cache
        (method ++ ":" ++ url) =
      some (should_block e now url method headers content_type).1.1 ∧
    dictGet (should_block e now url method headers content_type).2.cache_expiry
        (method ++ ":" ++ url) = some (now + e.cache_ttl) := by
  unfold should_block
  simp only [hmiss, Bool.false_eq_true, if_false]
  split
  · simp [update_cache, dictGet_set_self]
  · split
    · simp [update_cache, dictGet_set_self]
    · split
      · simp [update_cache, dictGet_set_self]
      · split
        · simp [update_cache, dictGet_set_self]
        · split
          · simp [update_cache, dictGet_set_self]
          · split
            · simp [update_cache, dictGet_set_self]
            · simp [update_cache, dictGet_set_self]

theorem ciEq_iff (a b : String) : ciEq a b = true ↔ pyLower a = pyLower b := by
  simp [ciEq]

theorem hGet_hSet_self (hs : List (String × String)) (k k2 v : String)
    (h : pyLower k2 = pyLower k) : hGet (hSet hs k v) k2 = some v := by
  induction hs with
  | nil => simp [hSet, hGet, List.find?, ciEq, h]
  | cons p rest ih =>
    by_cases hp : ciEq p.1 k
    · have hp2 : ciEq p.1 k2 = true := by
        rw [ciEq_iff] at hp ⊢
        rw [hp, h]
      simp [hSet, hp, hGet, List.find?, hp2]
    · have hp2 : ciEq p.1 k2 = false := by
        rw [Bool.eq_false_iff]
        intro hc
        rw [ciEq_iff] at hc
        exact hp (by rw [ciEq_iff, hc, h])
      simp [hSet, hp, hGet, List.find?, hp2]
      simpa [hGet] using ih

theorem hGet_hSet_other (hs : List (String × String)) (k k2 v : String)
    (h : pyLower k2 ≠ pyLower k) : hGet (hSet hs k v) k2 = hGet hs k2 := by
  induction hs with
  | nil =>
    have : ciEq k k2 = false := by
      rw [Bool.eq_false_iff]
      intro hc
      rw [ciEq_iff] at hc
      exact h hc.symm
    simp [hSet, hGet, List.find?, this]
  | cons p rest ih =>
    by_cases hp : ciEq p.1 k
    · have hp2 : ciEq p.1 k2 = false := by
        rw [Bool.eq_false_iff]
        intro hc
        rw [ciEq_iff] at hp hc
        exact h (hc.symm.trans hp)
      simp [hSet, hp, hGet, List.find?, hp2]
    · by_cases hq : ciEq p.1 k2
      · simp [hSet, hp, hGet, List.find?, hq]
      · simp [hSet, hp, hGet, List.find?, hq]
        simpa [hGet] using ih

theorem hGet_hDel_same (hs : List (String × String)) (k k2 : String)
    (h : pyLower k2 = pyLower k) : hGet (hDel hs k) k2 = none := by
  induction hs with
  | nil => simp [hDel, hGet, List.find?]
  | cons p rest ih =>
    by_cases hp : ciEq p.1 k
    · simp [hDel, hp] at ih ⊢
      exact ih
    · have hp2 : ciEq p.1 k2 = false := by
        rw [Bool.eq_false_iff]
        intro hc
        rw [ciEq_iff] at hc
        exact hp (by rw [ciEq_iff, hc, h])
      simp [hDel, hp, hGet, List.find?, hp2] at ih ⊢
      simpa [hGet, hDel] using ih

theorem hGet_hDel_other (hs : List (String × String)) (k k2 : String)
    (h : pyLower k2 ≠ pyLower k) : hGet (hDel hs k) k2 = hGet hs k2 := by
  induction hs with
  | nil => simp [hDel]
  | cons p rest ih =>
    by_cases hp : ciEq p.1 k
    · have hp2 : ciEq p.1 k2 = false := by
        rw [Bool.eq_false_iff]
        intro hc
        rw [ciEq_iff] at hp hc
        exact h (hc.symm.trans hp)
      simp [hDel, hp, hGet, List.find?, hp2] at ih ⊢
      simpa [hGet, hDel] using ih
    · by_cases hq : ciEq p.1 k2
      · simp [hDel, hp, hGet, List.find?, hq]
      · simp [hDel, hp, hGet, List.find?, hq] at ih ⊢
        simpa [hGet, hDel] using ih

theorem hDel_of_not_contains (hs : List (String × String)) (k : String)
    (h : hContains hs k = false) : hDel hs k = hs := by
  induction hs with
  | nil => rfl
  | cons p rest ih =>
    by_cases hp : ciEq p.1 k
    · simp [hContains, hGet, List.find?, hp] at h
    · simp [hContains, hGet, List.find?, hp] at h
      simp [hDel, hp]
      have := ih (by simpa [hContains, hGet] using h)
      simpa [hDel] using this

/-- One step of the strip loop behaves like an unconditional delete. -/
theorem stripStep_eq (h : List (String × String)) (k : String) :
    (if hContains h k then hDel h k else h) = hDel h k := by
  by_cases hc : hContains h k
  · rw [if_pos hc]
  · rw [if_neg hc, hDel_of_not_contains h k (by simpa using hc)]

theorem strip_eq_dels (hs : List (String × String)) :
    stripProxyHeaders hs =
      hDel (hDel (hDel (hDel (hDel hs "proxy-connection") "proxy-authorization")
        "x-forwarded-for") "x-real-ip") "via" := by
  unfold stripProxyHeaders headersToRemove
  simp only [List.foldl, stripStep_eq]

theorem hGet_strip_removed (hs : List (String × String)) (k : String)
    (h : ∃ n ∈ headersToRemove, pyLower k = pyLower n) :
    hGet (stripProxyHeaders hs) k = none := by
  rw [strip_eq_dels]
  obtain ⟨n, hn, hk⟩ := h
  simp only [headersToRemove, List.mem_cons, List.not_mem_nil, or_false] at hn
  rcases hn with rfl | rfl | rfl | rfl | rfl
  · rw [hGet_hDel_other _ _ _ (by rw [hk]; decide),
      hGet_hDel_other _ _ _ (by rw [hk]; decide),
      hGet_hDel_other _ _ _ (by rw [hk]; decide),
      hGet_hDel_other _ _ _ (by rw [hk]; decide),
      hGet_hDel_same _ _ _ hk]
  · rw [hGet_hDel_other _ _ _ (by rw [hk]; decide),
      hGet_hDel_other _ _ _ (by rw [hk]; decide),
      hGet_hDel_other _ _ _ (by rw [hk]; decide),
      hGet_hDel_same _ _ _ hk]
  · rw [hGet_hDel_other _ _ _ (by rw [hk]; decide),
      hGet_hDel_other _ _ _ (by rw [hk]; decide),
      hGet_hDel_same _ _ _ hk]
  · rw [hGet_hDel_other _ _ _ (by rw [hk]; decide),
      hGet_hDel_same _ _ _ hk]
  · rw [hGet_hDel_same _ _ _ hk]

theorem hGet_strip_other (hs : List (String × String)) (k : String)
    (h : ∀ n ∈ headersToRemove, pyLower k ≠ pyLower n) :
    hGet (stripProxyHeaders hs) k = hGet hs k := by
  rw [strip_eq_dels,
    hGet_hDel_other _ _ _ (h "via" (by decide)),
    hGet_hDel_other _ _ _ (h "x-real-ip" (by decide)),
    hGet_hDel_other _ _ _ (h "x-forwarded-for" (by decide)),
    hGet_hDel_other _ _ _ (h "proxy-authorization" (by decide)),
    hGet_hDel_other _ _ _ (h "proxy-connection" (by decide))]

theorem hGet_condSet_self (hs : List (String × String)) (k v : String) :
    hGet (condSet hs k v) k = some ((hGet hs k).getD v) := by
  unfold condSet
  by_cases hc : hContains hs k
  · rw [if_pos hc]
    unfold hContains at hc
    cases hg : hGet hs k with
    | none => rw [hg] at hc; simp at hc
    | some w => rfl
  · rw [if_neg hc]
    unfold hContains at hc
    rw [Bool.not_eq_true] at hc
    cases hg : hGet hs k with
    | none => simp [hGet_hSet_self hs k k v rfl]
    | some w => rw [hg] at hc; simp at hc

theorem hGet_condSet_other (hs : List (String × String)) (k k2 v : String)
    (h : pyLower k2 ≠ pyLower k) : hGet (condSet hs k v) k2 = hGet hs k2 := by
  unfold condSet
  by_cases hc : hContains hs k
  · rw [if_pos hc]
  · rw [if_neg hc, hGet_hSet_other hs k k2 v h]

/-! ### Substring machinery lemmas -/

section Substr

variable {α : Type}

theorem occursAt_isInfix {pat s : List α} {p : Nat} (h : occursAt pat s p) : pat <:+: s :=
  h.isInfix.trans (List.drop_suffix p s).isInfix

theorem infix_iff_occursAt {pat s : List α} : pat <:+: s ↔ ∃ p, occursAt pat s p := by
  constructor
  · rintro ⟨u, t, rfl⟩
    refine ⟨u.length, ?_⟩
    unfold occursAt
    rw [List.append_assoc, List.drop_left]
    exact List.prefix_append _ _
  · rintro ⟨p, h⟩
    exact occursAt_isInfix h

theorem prefix_append_split {l x y : List α} (h : l <+: x ++ y) :
    l <+: x ∨ (x.length < l.length ∧ x <+: l ∧ l.drop x.length <+: y) := by
  rcases le_or_lt l.length x.length with hl | hl
  · left
    have heq := List.prefix_iff_eq_take.mp h
    rw [List.take_append_eq_append_take, Nat.sub_eq_zero_of_le hl, List.take_zero,
      List.append_nil] at heq
    rw [heq]
    exact List.take_prefix _ _
  · right
    have heq := List.prefix_iff_eq_take.mp h
    rw [List.take_append_eq_append_take, List.take_of_length_le (le_of_lt hl)] at heq
    refine ⟨hl, ⟨y.take (l.length - x.length), heq.symm⟩, ?_⟩
    rw [heq, List.drop_left]
    exact List.take_prefix _ _

theorem occursAt_append_cases {pat x y : List α} {p : Nat} (h : occursAt pat (x ++ y) p) :
    (occursAt pat x p ∧ p + pat.length ≤ x.length) ∨
    (p < x.length ∧ x.length < p + pat.length ∧
      pat.take (x.length - p) <:+ x ∧ pat.drop (x.length - p) <+: y) ∨
    (x.length ≤ p ∧ occursAt pat y (p - x.length)) := by
  unfold occursAt at h
  rw [List.drop_append_eq_append_drop] at h
  rcases le_or_lt x.length p with hp | hp
  · right; right
    refine ⟨hp, ?_⟩
    unfold occursAt
    rwa [List.drop_eq_nil_of_le hp, List.nil_append] at h
  · have h0 : p - x.length = 0 := Nat.sub_eq_zero_of_le (le_of_lt hp)
    rw [h0, List.drop_zero] at h
    rcases prefix_append_split h with h1 | ⟨hstrict, h2, h3⟩
    · left
      have hlen := h1.length_le
      rw [List.length_drop] at hlen
      exact ⟨h1, by omega⟩
    · right; left
      rw [List.length_drop] at hstrict
      refine ⟨hp, by omega, ?_, ?_⟩
      · have htk : pat.take (x.drop p).length = x.drop p :=
          (List.prefix_iff_eq_take.mp h2).symm
        rw [List.length_drop] at htk
        rw [htk]
        exact List.drop_suffix _ _
      · rwa [List.length_drop] at h3

theorem notInfix_append_node {pat x y : List α}
    (hx : ¬ pat <:+: x)
    (hstr : ∀ m, m < pat.length → 0 < m → ¬ (pat.take m <:+ x ∧ pat.drop m <+: y))
    (hy : ¬ pat <:+: y) : ¬ pat <:+: (x ++ y) := by
  intro h
  obtain ⟨p, hp⟩ := infix_iff_occursAt.mp h
  rcases occursAt_append_cases hp with ⟨h1, _⟩ | ⟨h1, h1b, h2, h3⟩ | ⟨h1, h2⟩
  · exact hx (occursAt_isInfix h1)
  · rcases lt_or_le (x.length - p) pat.length with hm | hm
    · exact hstr (x.length - p) hm (by omega) ⟨h2, h3⟩
    · rw [List.take_of_length_le hm] at h2
      exact hx h2.isInfix
  · exact hy (occursAt_isInfix h2)

theorem str_kill_left {pat x y : List α}
    (h : ∀ m, m < pat.length → 0 < m → ¬ pat.take m <:+ x) :
    ∀ m, m < pat.length → 0 < m → ¬ (pat.take m <:+ x ∧ pat.drop m <+: y) :=
  fun m h1 h2 hand => h m h1 h2 hand.1

theorem str_kill_right {pat x seg rest : List α}
    (h1 : ∀ m, m < pat.length → 0 < m → ¬ pat.drop m <+: seg)
    (h2 : ∀ m, m < pat.length → 0 < m → ¬ seg <+: pat.drop m) :
    ∀ m, m < pat.length → 0 < m → ¬ (pat.take m <:+ x ∧ pat.drop m <+: (seg ++ rest)) := by
  intro m hm1 hm2 hand
  rcases prefix_append_split hand.2 with hc | ⟨_, hc, _⟩
  · exact h1 m hm1 hm2 hc
  · exact h2 m hm1 hm2 hc

theorem countP_eq_one_of_unique {l : List Nat} {pred : Nat → Bool}
    (hnd : l.Nodup) {v : Nat} (hv : v ∈ l) (hpv : pred v = true)
    (huniq : ∀ a ∈ l, pred a = true → a = v) : l.countP pred = 1 := by
  induction l with
  | nil => cases hv
  | cons a t ih =>
    rcases List.mem_cons.mp hv with rfl | hvt
    · have ht0 : t.countP pred = 0 := by
        apply List.countP_eq_zero.mpr
        intro b hb hpred
        have hbv := huniq b (List.mem_cons_of_mem _ hb) hpred
        subst hbv
        exact (List.nodup_cons.mp hnd).1 hb
      rw [List.countP_cons, hpv, ht0]
      simp
    · have ha : pred a = false := by
        by_contra hc
        rw [Bool.not_eq_false] at hc
        have hav := huniq a (List.mem_cons_self a t) hc
        subst hav
        exact (List.nodup_cons.mp hnd).1 hvt
      rw [List.countP_cons, ha]
      simp only [if_neg, Bool.false_eq_true, if_false, Nat.add_zero]
      exact ih (List.nodup_cons.mp hnd).2 hvt
        (fun b hb => huniq b (List.mem_cons_of_mem _ hb))

theorem countOccur_eq_one [DecidableEq α] {pat : List α} (hpat : pat ≠ []) {s x y : List α}
    (hs : s = x ++ pat ++ y)
    (huniq : ∀ p, occursAt pat s p → p = x.length) : countOccur pat s = 1 := by
  unfold countOccur
  have hxs : x.length < s.length + 1 := by
    rw [hs]
    simp [List.length_append]
    omega
  have hocc : occursAt pat s x.length := by
    unfold occursAt
    rw [hs, List.append_assoc, List.drop_left]
    exact List.prefix_append _ _
  apply countP_eq_one_of_unique (List.nodup_range _) (List.mem_range.mpr hxs)
  · exact decide_eq_true hocc
  · intro a _ hpred
    have hocc2 : pat <+: s.drop a := of_decide_eq_true hpred
    exact huniq a hocc2

theorem countOccur_insert_one [DecidableEq α] {pat x y : List α} (hpat : pat ≠ [])
    (hb1 : ∀ m, m < pat.length → 0 < m → ¬ pat.drop m <+: pat)
    (hb2 : ∀ m, m < pat.length → 0 < m → ¬ pat.take m <:+ pat)
    (hx : ¬ pat <:+: x) (hy : ¬ pat <:+: y) :
    countOccur pat (x ++ pat ++ y) = 1 := by
  apply countOccur_eq_one hpat rfl
  intro p hp
  rw [List.append_assoc] at hp
  have hplen : 0 < pat.length := List.length_pos.mpr hpat
  rcases occursAt_append_cases hp with ⟨h1, _⟩ | ⟨h1, h1b, h2, h3⟩ | ⟨h1, h2⟩
  · exact absurd (occursAt_isInfix h1) hx
  · rcases lt_or_le (x.length - p) pat.length with hm | hm
    · rcases prefix_append_split h3 with hc | ⟨hlen2, _, _⟩
      · exact absurd hc (hb1 _ hm (by omega))
      · rw [List.length_drop] at hlen2
        omega
    · rw [List.take_of_length_le hm] at h2
      exact absurd h2.isInfix hx
  · rcases occursAt_append_cases h2 with ⟨h3, h4⟩ | ⟨h3, h3b, h4, h5⟩ | ⟨h3, h4⟩
    · omega
    · exact absurd h4 (hb2 _ (by omega) (by omega))
    · exact absurd (occursAt_isInfix h4) hy

theorem eq_nil_of_infix_nil {pat : List α} (h : pat <:+: ([] : List α)) : pat = [] := by
  simpa using h.length_le

theorem replaceFirst_spec [DecidableEq α] {pat repl : List α} (hpat : pat ≠ []) :
    ∀ s : List α, pat <:+: s →
      ∃ a b, s = a ++ pat ++ b ∧ replaceFirstL pat repl s = a ++ repl ++ b ∧
        ∀ q, occursAt pat s q → a.length ≤ q := by
  intro s
  induction s with
  | nil => intro h; exact absurd (eq_nil_of_infix_nil h) hpat
  | cons c t ih =>
    intro h
    by_cases hpre : pat.isPrefixOf (c :: t)
    · have hp : pat <+: c :: t := by rwa [List.isPrefixOf_iff_prefix] at hpre
      refine ⟨[], (c :: t).drop pat.length, ?_, ?_, ?_⟩
      · have htk := List.prefix_iff_eq_take.mp hp
        rw [List.nil_append]
        conv_lhs => rw [← List.take_append_drop pat.length (c :: t), ← htk]
      · unfold replaceFirstL
        rw [if_pos hpre, List.nil_append]
      · intro q _
        exact Nat.zero_le q
    · have hp : ¬ pat <+: c :: t := by rwa [List.isPrefixOf_iff_prefix] at hpre
      have ht : pat <:+: t := by
        rcases List.infix_cons_iff.mp h with h1 | h1
        · exact absurd h1 hp
        · exact h1
      obtain ⟨a, b, hsp, hrw, hmin⟩ := ih ht
      refine ⟨c :: a, b, ?_, ?_, ?_⟩
      · rw [List.cons_append, List.cons_append, ← hsp]
      · unfold replaceFirstL
        rw [if_neg hpre, hrw]
        rfl
      · intro q hq
        cases q with
        | zero => exact absurd hq hp
        | succ q2 =>
          have hq2 : occursAt pat t q2 := by
            unfold occursAt at hq ⊢
            rwa [List.drop_succ_cons] at hq
          have := hmin q2 hq2
          simp only [List.length_cons]
          omega

theorem hasInfixB_iff [DecidableEq α] {pat s : List α} : hasInfixB pat s = true ↔ pat <:+: s := by
  induction s with
  | nil =>
    simp only [hasInfixB, List.isEmpty_iff, List.infix_nil]
  | cons c t ih =>
    simp only [hasInfixB, Bool.or_eq_true, List.isPrefixOf_iff_prefix, ih,
      List.infix_cons_iff]

end Substr

/-! ### UTF-8 codec lemmas -/

theorem utf8Encode_append (u v : List Nat) :
    utf8Encode (u ++ v) = utf8Encode u ++ utf8Encode v := by
  induction u with
  | nil => rfl
  | cons c t ih =>
    show utf8EncodeChar c ++ utf8Encode (t ++ v) = (utf8EncodeChar c ++ utf8Encode t) ++ _
    rw [ih, List.append_assoc]

theorem utf8EncodeChar_ne_nil (c : Nat) : utf8EncodeChar c ≠ [] := by
  unfold utf8EncodeChar
  split_ifs <;> simp

theorem utf8Encode_length_pos (l : List Nat) (h : l ≠ []) : 0 < (utf8Encode l).length := by
  cases l with
  | nil => exact absurd rfl h
  | cons c t =>
    show 0 < (utf8EncodeChar c ++ utf8Encode t).length
    rw [List.length_append]
    have h1 := List.length_pos.mpr (utf8EncodeChar_ne_nil c)
    omega

theorem encodeChar_ascii (b : Nat) (h : b < 0x80) : utf8EncodeChar b = [b] := by
  unfold utf8EncodeChar
  rw [if_pos h]

theorem encodeChar_scalar2 (b b1 : Nat) (h : utf8SeqTwo b b1) :
    utf8EncodeChar (scalar2 b b1) = [b, b1] := by
  obtain ⟨⟨h1, h2⟩, h3, h4⟩ := h
  unfold utf8EncodeChar scalar2
  rw [if_neg (by omega), if_pos (by omega)]
  have e1 : 192 + ((b - 192) * 64 + (b1 - 128)) / 64 = b := by omega
  have e2 : 128 + ((b - 192) * 64 + (b1 - 128)) % 64 = b1 := by omega
  rw [e1, e2]

theorem encodeChar_scalar3 (b b1 b2 : Nat) (h : utf8SeqThree b b1 b2) :
    utf8EncodeChar (scalar3 b b1 b2) = [b, b1, b2] := by
  obtain ⟨⟨h1, h2⟩, ⟨h3, h4⟩, ⟨h5, h6⟩, h7, h8⟩ := h
  have hge : 2048 ≤ scalar3 b b1 b2 := by
    unfold scalar3
    by_cases hb : b = 224
    · have := h7 hb
      omega
    · omega
  unfold utf8EncodeChar scalar3
  unfold scalar3 at hge
  rw [if_neg (by omega), if_neg (by omega), if_pos (by omega)]
  have e1 : 224 + ((b - 224) * 4096 + (b1 - 128) * 64 + (b2 - 128)) / 4096 = b := by omega
  have e2 : 128 + ((b - 224) * 4096 + (b1 - 128) * 64 + (b2 - 128)) / 64 % 64 = b1 := by omega
  have e3 : 128 + ((b - 224) * 4096 + (b1 - 128) * 64 + (b2 - 128)) % 64 = b2 := by omega
  rw [e1, e2, e3]

theorem encodeChar_scalar4 (b b1 b2 b3 : Nat) (h : utf8SeqFour b b1 b2 b3) :
    utf8EncodeChar (scalar4 b b1 b2 b3) = [b, b1, b2, b3] := by
  obtain ⟨⟨h1, h2⟩, ⟨h3, h4⟩, ⟨h5, h6⟩, ⟨h7, h8⟩, h9, h10⟩ := h
  have hge : 65536 ≤ scalar4 b b1 b2 b3 := by
    unfold scalar4
    by_cases hb : b = 240
    · have := h9 hb
      omega
    · omega
  unfold utf8EncodeChar scalar4
  unfold scalar4 at hge
  rw [if_neg (by omega), if_neg (by omega), if_neg (by omega)]
  have e1 : 240 +
      ((b - 240) * 262144 + (b1 - 128) * 4096 + (b2 - 128) * 64 + (b3 - 128)) / 262144 = b := by
    omega
  have e2 : 128 +
      ((b - 240) * 262144 + (b1 - 128) * 4096 + (b2 - 128) * 64 + (b3 - 128)) / 4096 % 64 =
      b1 := by omega
  have e3 : 128 +
      ((b - 240) * 262144 + (b1 - 128) * 4096 + (b2 - 128) * 64 + (b3 - 128)) / 64 % 64 =
      b2 := by omega
  have e4 : 128 +
      ((b - 240) * 262144 + (b1 - 128) * 4096 + (b2 - 128) * 64 + (b3 - 128)) % 64 = b3 := by
    omega
  rw [e1, e2, e3, e4]

/-- Decode-then-reencode step: one decoded character whose encoding is
`bs`, followed by a correctly re-encoded tail. -/
theorem enc_step (tail : List Nat) (c : Nat) (bs cs : List Nat)
    (hch : utf8EncodeChar c = bs)
    (ih : ∀ cs2, utf8Decode tail = some cs2 → utf8Encode cs2 = tail)
    (h : (utf8Decode tail).map (fun cs2 => c :: cs2) = some cs) :
    utf8Encode cs = bs ++ tail := by
  cases hd : utf8Decode tail with
  | none => rw [hd] at h; exact Option.noConfusion h
  | some cs2 =>
    rw [hd] at h
    injection h with h2
    subst h2
    show utf8EncodeChar c ++ utf8Encode cs2 = bs ++ tail
    rw [ih cs2 hd, hch]

/-- Re-encoding a successfully decoded byte string reproduces it
byte-for-byte (UTF-8 decoding is the inverse of encoding on valid input). -/
theorem utf8Decode_encode (l : List Nat) :
    ∀ cs, utf8Decode l = some cs → utf8Encode cs = l := by
  induction l using utf8Decode.induct with
  | case1 =>
    intro cs h
    rw [utf8Decode] at h
    injection h with h2
    rw [← h2]
    rfl
  | case2 b hb ih =>
    intro cs h
    rw [utf8Decode, if_pos hb] at h
    exact enc_step [] b [b] cs (encodeChar_ascii b hb) ih h
  | case3 b hb =>
    intro cs h
    rw [utf8Decode, if_neg hb] at h
    exact Option.noConfusion h
  | case4 b b1 hb ih =>
    intro cs h
    rw [utf8Decode, if_pos hb] at h
    exact enc_step [b1] b [b] cs (encodeChar_ascii b hb) ih h
  | case5 b b1 hb h2 ih =>
    intro cs h
    rw [utf8Decode, if_neg hb, if_pos h2] at h
    exact enc_step [] (scalar2 b b1) [b, b1] cs (encodeChar_scalar2 b b1 h2) ih h
  | case6 b b1 hb h2 =>
    intro cs h
    rw [utf8Decode, if_neg hb, if_neg h2] at h
    exact Option.noConfusion h
  | case7 b b1 b2 hb ih =>
    intro cs h
    rw [utf8Decode, if_pos hb] at h
    exact enc_step [b1, b2] b [b] cs (encodeChar_ascii b hb) ih h
  | case8 b b1 b2 hb h2 ih =>
    intro cs h
    rw [utf8Decode, if_neg hb, if_pos h2] at h
    exact enc_step [b2] (scalar2 b b1) [b, b1] cs (encodeChar_scalar2 b b1 h2) ih h
  | case9 b b1 b2 hb h2 h3 ih =>
    intro cs h
    rw [utf8Decode, if_neg hb, if_neg h2, if_pos h3] at h
    exact enc_step [] (scalar3 b b1 b2) [b, b1, b2] cs (encodeChar_scalar3 b b1 b2 h3) ih h
  | case10 b b1 b2 hb h2 h3 =>
    intro cs h
    rw [utf8Decode, if_neg hb, if_neg h2, if_neg h3] at h
    exact Option.noConfusion h
  | case11 b b1 b2 b3 rest hb ih =>
    intro cs h
    rw [utf8Decode, if_pos hb] at h
    exact enc_step (b1 :: b2 :: b3 :: rest) b [b] cs (encodeChar_ascii b hb) ih h
  | case12 b b1 b2 b3 rest hb h2 ih =>
    intro cs h
    rw [utf8Decode, if_neg hb, if_pos h2] at h
    exact enc_step (b2 :: b3 :: rest) (scalar2 b b1) [b, b1] cs
      (encodeChar_scalar2 b b1 h2) ih h
  | case13 b b1 b2 b3 rest hb h2 h3 ih =>
    intro cs h
    rw [utf8Decode, if_neg hb, if_neg h2, if_pos h3] at h
    exact enc_step (b3 :: rest) (scalar3 b b1 b2) [b, b1, b2] cs
      (encodeChar_scalar3 b b1 b2 h3) ih h
  | case14 b b1 b2 b3 rest hb h2 h3 h4 ih =>
    intro cs h
    rw [utf8Decode, if_neg hb, if_neg h2, if_neg h3, if_pos h4] at h
    exact enc_step rest (scalar4 b b1 b2 b3) [b, b1, b2, b3] cs
      (encodeChar_scalar4 b b1 b2 b3 h4) ih h
  | case15 b b1 b2 b3 rest hb h2 h3 h4 =>
    intro cs h
    rw [utf8Decode, if_neg hb, if_neg h2, if_neg h3, if_neg h4] at h
    exact Option.noConfusion h

/-! ### Localizing overlaps via character positions

A prefix relation fixes the first character and a suffix relation fixes the
last one, so a potential overlap position must carry the right character;
`idxsFrom` finds all such positions in one pass, leaving only a constant
number of full checks. -/

theorem idxsFrom_spec {α : Type} [DecidableEq α] (c : α) (s : List α) :
    ∀ (i m : Nat), s[m]? = some c → (i + m) ∈ idxsFrom c i s := by
  induction s with
  | nil => intro i m h; simp at h
  | cons a t ih =>
    intro i m h
    cases m with
    | zero =>
      simp at h
      subst h
      simp [idxsFrom]
    | succ m2 =>
      have h2 : t[m2]? = some c := by simpa using h
      have he : i + (m2 + 1) = (i + 1) + m2 := by omega
      unfold idxsFrom
      by_cases ha : a = c
      · rw [if_pos ha, he]
        exact List.mem_cons_of_mem _ (ih (i + 1) m2 h2)
      · rw [if_neg ha, he]
        exact ih (i + 1) m2 h2

/-- If some nonempty tail `pat.drop m` of `pat` is a prefix of `s`, then
position `m` of `pat` holds the first character of `s`. -/
theorem headPos {α : Type} [DecidableEq α] {pat s : List α} {m : Nat} {c : α}
    (hm : m < pat.length) (hpre : pat.drop m <+: s) (hs : s.head? = some c) :
    m ∈ idxsFrom c 0 pat := by
  have hh : pat[m]? = some c := by
    rw [← List.head?_drop]
    cases hd : pat.drop m with
    | nil =>
      have := congrArg List.length hd
      simp [List.length_drop] at this
      omega
    | cons x xs =>
      cases hs2 : s with
      | nil => rw [hs2] at hs; simp at hs
      | cons y ys =>
        rw [hd, hs2] at hpre
        have hxy := (List.cons_prefix_cons.mp hpre).1
        rw [hs2] at hs
        simp at hs
        simp [hxy, hs]
  simpa using idxsFrom_spec c pat 0 m hh

/-- If a nonempty `seg` is a prefix of `pat.drop m` (with `m` inside
`pat`), then position `m` of `pat` holds the first character of `seg`. -/
theorem headPosOf {α : Type} [DecidableEq α] {pat seg : List α} {m : Nat} {c : α}
    (hm : m < pat.length) (hpre : seg <+: pat.drop m) (hseg : seg.head? = some c) :
    m ∈ idxsFrom c 0 pat := by
  have hh : pat[m]? = some c := by
    rw [← List.head?_drop]
    cases hsg : seg with
    | nil => rw [hsg] at hseg; simp at hseg
    | cons x xs =>
      cases hd : pat.drop m with
      | nil =>
        rw [hsg, hd] at hpre
        have := hpre.length_le
        simp at this
      | cons y ys =>
        rw [hsg, hd] at hpre
        have hxy := (List.cons_prefix_cons.mp hpre).1
        rw [hsg] at hseg
        simp at hseg
        simp [← hxy, hseg]
  simpa using idxsFrom_spec c pat 0 m hh

/-- If a nonempty take `pat.take m` of `pat` is a suffix of `s`, then
position `m - 1` of `pat` holds the last character of `s`. -/
theorem lastPos {α : Type} [DecidableEq α] {pat s : List α} {m : Nat} {c : α}
    (hm1 : 0 < m) (hm : m ≤ pat.length) (hsuf : pat.take m <:+ s)
    (hs : s.getLast? = some c) : (m - 1) ∈ idxsFrom c 0 pat := by
  have hlen : (pat.take m).length = m := by
    simp [List.length_take, Nat.min_eq_left hm]
  have hl : (pat.take m).getLast? = some c := by
    obtain ⟨t, ht⟩ := hsuf
    rw [← ht, List.getLast?_append] at hs
    cases hg : (pat.take m).getLast? with
    | none =>
      have : pat.take m = [] := by simpa using hg
      rw [this] at hlen
      simp at hlen
      omega
    | some x =>
      rw [hg] at hs
      simp at hs
      rw [hs]
  rw [List.getLast?_eq_getElem?, hlen, List.getElem?_take_of_lt (by omega)] at hl
  simpa using idxsFrom_spec c pat 0 (m - 1) hl

/-! ### Concrete facts about the injected tags, settled by computation.
`S`/`T`/`H`/`P` abbreviate the code-point lists of the style tag, the script
tag, `</head>` and `</body>`.  The drop/take conditions say the tags have no
nontrivial borders and no overlaps with each other or with the two HTML
markers, which makes every insertion create exactly one new occurrence. -/

theorem styleTagList_eq : styleTagCodes = styleTagList := by decide

theorem scriptTagList_eq : scriptTagCodes = scriptTagList := by decide

theorem st_ne_nil : styleTagCodes ≠ [] := by 
  rw [styleTagList_eq]
  decide

theorem sc_ne_nil : scriptTagCodes ≠ [] := by 
  rw [scriptTagList_eq]
  decide

theorem hd_ne_nil : headCodes ≠ [] := by decide

theorem bc_ne_nil : bodyCloseCodes ≠ [] := by decide

theorem hd_len7 : headCodes.length = 7 := by decide

theorem bc_len7 : bodyCloseCodes.length = 7 := by decide

theorem css_nonempty : ¬ generate_cosmetic_css = "" := by decide

theorem js_nonempty : ¬ generate_scriptlet_js = "" := by decide

theorem st_drop_st : ∀ m, m < styleTagCodes.length → 0 < m →
    ¬ styleTagCodes.drop m <+: styleTagCodes := by 
  rw [styleTagList_eq]
  decide

theorem st_take_st : ∀ m, m < styleTagCodes.length → 0 < m →
    ¬ styleTagCodes.take m <:+ styleTagCodes := by
  rw [styleTagList_eq]
  intro m hm hm0 hsuf
  have h := lastPos hm0 (le_of_lt hm) hsuf
      (show styleTagList.getLast? = some 62 by decide)
  have hidx : idxsFrom 62 0 styleTagList = [22, 632] := by decide
  rw [hidx] at h
  simp at h
  have hlen : styleTagList.length = 633 := by decide
  rcases h with h | h
  · have hm23 : m = 23 := by omega
    subst hm23
    exact absurd hsuf (by decide)
  · omega

theorem sc_drop_sc : ∀ m, m < scriptTagCodes.length → 0 < m →
    ¬ scriptTagCodes.drop m <+: scriptTagCodes := by 
  rw [scriptTagList_eq]
  decide

theorem sc_take_sc : ∀ m, m < scriptTagCodes.length → 0 < m →
    ¬ scriptTagCodes.take m <:+ scriptTagCodes := by
  rw [scriptTagList_eq]
  intro m hm hm0 hsuf
  have h := lastPos hm0 (le_of_lt hm) hsuf
      (show scriptTagList.getLast? = some 62 by decide)
  have hidx : idxsFrom 62 0 scriptTagList = [30, 330] := by decide
  rw [hidx] at h
  simp at h
  have hlen : scriptTagList.length = 331 := by decide
  rcases h with h | h
  · have hm31 : m = 31 := by omega
    subst hm31
    exact absurd hsuf (by decide)
  · omega

theorem st_drop_in_sc : ∀ m, m < styleTagCodes.length → 0 < m →
    ¬ styleTagCodes.drop m <+: scriptTagCodes := by 
  rw [styleTagList_eq, scriptTagList_eq]
  decide

theorem sc_in_st_drop : ∀ m, m < styleTagCodes.length → 0 < m →
    ¬ scriptTagCodes <+: styleTagCodes.drop m := by 
  rw [styleTagList_eq, scriptTagList_eq]
  decide

theorem st_take_in_sc : ∀ m, m < styleTagCodes.length → 0 < m →
    ¬ styleTagCodes.take m <:+ scriptTagCodes := by
  rw [styleTagList_eq, scriptTagList_eq]
  intro m hm hm0 hsuf
  have h := lastPos hm0 (le_of_lt hm) hsuf
      (show scriptTagList.getLast? = some 62 by decide)
  have hidx : idxsFrom 62 0 styleTagList = [22, 632] := by decide
  rw [hidx] at h
  simp at h
  have hlen : styleTagList.length = 633 := by decide
  rcases h with h | h
  · have hm23 : m = 23 := by omega
    subst hm23
    exact absurd hsuf (by decide)
  · omega

theorem st_nin_sc : ¬ styleTagCodes <:+: scriptTagCodes := by 
  rw [styleTagList_eq, scriptTagList_eq]
  decide

theorem st_nin_bc : ¬ styleTagCodes <:+: bodyCloseCodes := by 
  rw [styleTagList_eq]
  decide

theorem st_take_in_bc : ∀ m, m < styleTagCodes.length → 0 < m →
    ¬ styleTagCodes.take m <:+ bodyCloseCodes := by
  rw [styleTagList_eq]
  intro m hm hm0 hsuf
  have h := lastPos hm0 (le_of_lt hm) hsuf
      (show bodyCloseCodes.getLast? = some 62 by decide)
  have hidx : idxsFrom 62 0 styleTagList = [22, 632] := by decide
  rw [hidx] at h
  simp at h
  have hlen : styleTagList.length = 633 := by decide
  rcases h with h | h
  · have hm23 : m = 23 := by omega
    subst hm23
    exact absurd hsuf (by decide)
  · omega

theorem st_nin_hd : ¬ styleTagCodes <:+: headCodes := by 
  rw [styleTagList_eq]
  decide

theorem st_take_in_hd : ∀ m, m < styleTagCodes.length → 0 < m →
    ¬ styleTagCodes.take m <:+ headCodes := by
  rw [styleTagList_eq]
  intro m hm hm0 hsuf
  have h := lastPos hm0 (le_of_lt hm) hsuf
      (show headCodes.getLast? = some 62 by decide)
  have hidx : idxsFrom 62 0 styleTagList = [22, 632] := by decide
  rw [hidx] at h
  simp at h
  have hlen : styleTagList.length = 633 := by decide
  rcases h with h | h
  · have hm23 : m = 23 := by omega
    subst hm23
    exact absurd hsuf (by decide)
  · omega

theorem sc_drop_in_st : ∀ m, m < scriptTagCodes.length → 0 < m →
    ¬ scriptTagCodes.drop m <+: styleTagCodes := by 
  rw [styleTagList_eq, scriptTagList_eq]
  decide

theorem st_in_sc_drop : ∀ m, m < scriptTagCodes.length → 0 < m →
    ¬ styleTagCodes <+: scriptTagCodes.drop m := by 
  rw [styleTagList_eq, scriptTagList_eq]
  decide

theorem sc_nin_st : ¬ scriptTagCodes <:+: styleTagCodes := by 
  rw [styleTagList_eq, scriptTagList_eq]
  decide

theorem sc_take_in_st : ∀ m, m < scriptTagCodes.length → 0 < m →
    ¬ scriptTagCodes.take m <:+ styleTagCodes := by
  rw [styleTagList_eq, scriptTagList_eq]
  intro m hm hm0 hsuf
  have h := lastPos hm0 (le_of_lt hm) hsuf
      (show styleTagList.getLast? = some 62 by decide)
  have hidx : idxsFrom 62 0 scriptTagList = [30, 330] := by decide
  rw [hidx] at h
  simp at h
  have hlen : scriptTagList.length = 331 := by decide
  rcases h with h | h
  · have hm31 : m = 31 := by omega
    subst hm31
    exact absurd hsuf (by decide)
  · omega

theorem sc_nin_hd : ¬ scriptTagCodes <:+: headCodes := by 
  rw [scriptTagList_eq]
  decide

theorem sc_take_in_hd : ∀ m, m < scriptTagCodes.length → 0 < m →
    ¬ scriptTagCodes.take m <:+ headCodes := by
  rw [scriptTagList_eq]
  intro m hm hm0 hsuf
  have h := lastPos hm0 (le_of_lt hm) hsuf
      (show headCodes.getLast? = some 62 by decide)
  have hidx : idxsFrom 62 0 scriptTagList = [30, 330] := by decide
  rw [hidx] at h
  simp at h
  have hlen : scriptTagList.length = 331 := by decide
  rcases h with h | h
  · have hm31 : m = 31 := by omega
    subst hm31
    exact absurd hsuf (by decide)
  · omega

theorem bc_drop_in_hd : ∀ m, m < bodyCloseCodes.length → 0 < m →
    ¬ bodyCloseCodes.drop m <+: headCodes := by decide

theorem hd_in_bc_drop : ∀ m, m < bodyCloseCodes.length → 0 < m →
    ¬ headCodes <+: bodyCloseCodes.drop m := by decide

theorem bc_drop_in_st : ∀ m, m < bodyCloseCodes.length → 0 < m →
    ¬ bodyCloseCodes.drop m <+: styleTagCodes := by 
  rw [styleTagList_eq]
  decide

theorem st_in_bc_drop : ∀ m, m < bodyCloseCodes.length → 0 < m →
    ¬ styleTagCodes <+: bodyCloseCodes.drop m := by 
  rw [styleTagList_eq]
  decide

theorem bc_nin_st : ¬ bodyCloseCodes <:+: styleTagCodes := by 
  rw [styleTagList_eq]
  decide

theorem bc_take_in_st : ∀ m, m < bodyCloseCodes.length → 0 < m →
    ¬ bodyCloseCodes.take m <:+ styleTagCodes := by
  rw [styleTagList_eq]
  intro m hm hm0 hsuf
  have h := lastPos hm0 (le_of_lt hm) hsuf
      (show styleTagList.getLast? = some 62 by decide)
  have hidx : idxsFrom 62 0 bodyCloseCodes = [6] := by decide
  rw [hidx] at h
  simp at h
  have hlen : bodyCloseCodes.length = 7 := by decide
  omega

theorem bc_nsuf_st : ¬ bodyCloseCodes <:+ styleTagCodes := by 
  rw [styleTagList_eq]
  decide

theorem bc_take_in_hd : ∀ m, m < bodyCloseCodes.length → 0 < m →
    ¬ bodyCloseCodes.take m <:+ headCodes := by decide

theorem bc_nsuf_hd : ¬ bodyCloseCodes <:+ headCodes := by decide

theorem bc_npre_hd : ¬ bodyCloseCodes <+: headCodes := by decide

/-! ### Structural lemmas about the two injection steps -/

/-- A `</body>` occurrence in `a ++ (</head> ++ b)` survives the insertion
of the style tag between `a` and `</head>`. -/
theorem bodyClose_survives (a b : List Nat)
    (hP : bodyCloseCodes <:+: a ++ (headCodes ++ b)) :
    bodyCloseCodes <:+: a ++ (styleTagCodes ++ (headCodes ++ b)) := by
  obtain ⟨p, hocc⟩ := infix_iff_occursAt.mp hP
  rcases occursAt_append_cases hocc with ⟨h1, _⟩ | ⟨h1, h1b, h2, h3⟩ | ⟨h1, h2⟩
  · exact (occursAt_isInfix h1).trans (List.prefix_append _ _).isInfix
  · rcases lt_or_le (a.length - p) bodyCloseCodes.length with hm | hm
    · exfalso
      rcases prefix_append_split h3 with hc | ⟨_, hc, _⟩
      · exact bc_drop_in_hd _ hm (by omega) hc
      · exact hd_in_bc_drop _ hm (by omega) hc
    · rw [List.take_of_length_le hm] at h2
      exact h2.isInfix.trans (List.prefix_append _ _).isInfix
  · exact (occursAt_isInfix h2).trans
      ((List.suffix_append styleTagCodes (headCodes ++ b)).trans
        (List.suffix_append a (styleTagCodes ++ (headCodes ++ b)))).isInfix

/-- The script tag does not occur in the styled document when it occurs in
neither of the two original fragments. -/
theorem scriptTag_notin_styled (a b : List Nat)
    (ha : ¬ scriptTagCodes <:+: a) (hb : ¬ scriptTagCodes <:+: b) :
    ¬ scriptTagCodes <:+: a ++ (styleTagCodes ++ (headCodes ++ b)) := by
  apply notInfix_append_node ha
  · exact str_kill_right sc_drop_in_st st_in_sc_drop
  · apply notInfix_append_node sc_nin_st
    · exact str_kill_left sc_take_in_st
    · apply notInfix_append_node sc_nin_hd
      · exact str_kill_left sc_take_in_hd
      · exact hb

/-- The style tag does not occur in `x ++ (script ++ (</body> ++ z))` when
it occurs in neither `x` nor `z`. -/
theorem styleTag_notin_scripted (x z : List Nat)
    (hx : ¬ styleTagCodes <:+: x) (hz : ¬ styleTagCodes <:+: z) :
    ¬ styleTagCodes <:+: x ++ (scriptTagCodes ++ (bodyCloseCodes ++ z)) := by
  apply notInfix_append_node hx
  · exact str_kill_right st_drop_in_sc sc_in_st_drop
  · apply notInfix_append_node st_nin_sc
    · exact str_kill_left st_take_in_sc
    · apply notInfix_append_node st_nin_bc
      · exact str_kill_left st_take_in_bc
      · exact hz

/-- The style tag does not occur in `</head> ++ z` when it does not occur
in `z`. -/
theorem styleTag_notin_headed (z : List Nat) (hz : ¬ styleTagCodes <:+: z) :
    ¬ styleTagCodes <:+: headCodes ++ z := by
  apply notInfix_append_node st_nin_hd
  · exact str_kill_left st_take_in_hd
  · exact hz

/-- Any `</body>` occurrence in the styled document `a ++ (style ++
(</head> ++ b))` lies entirely inside `a` or entirely inside `b`. -/
theorem bodyClose_position (a b : List Nat) (p : Nat)
    (hocc : occursAt bodyCloseCodes (a ++ (styleTagCodes ++ (headCodes ++ b))) p) :
    p + bodyCloseCodes.length ≤ a.length ∨
      a.length + styleTagCodes.length + headCodes.length ≤ p := by
  rcases occursAt_append_cases hocc with ⟨h1, h2⟩ | ⟨h1, h1b, h2, h3⟩ | ⟨h1, h2⟩
  · left
    exact h2
  · rcases lt_or_le (a.length - p) bodyCloseCodes.length with hm | hm
    · exfalso
      rcases prefix_append_split h3 with hc | ⟨_, hc, _⟩
      · exact bc_drop_in_st _ hm (by omega) hc
      · exact st_in_bc_drop _ hm (by omega) hc
    · left
      omega
  · rcases occursAt_append_cases h2 with ⟨h3, h4⟩ | ⟨h3, h3b, h4, h5⟩ | ⟨h3, h4⟩
    · exact absurd (occursAt_isInfix h3) bc_nin_st
    · exfalso
      rcases lt_or_le (styleTagCodes.length - (p - a.length)) bodyCloseCodes.length with hm | hm
      · exact bc_take_in_st _ hm (by omega) h4
      · rw [List.take_of_length_le hm] at h4
        exact bc_nsuf_st h4
    · rcases occursAt_append_cases h4 with ⟨h5, h6⟩ | ⟨h5, h5b, h6, h7⟩ | ⟨h5, h6⟩
      · exfalso
        have hq : p - a.length - styleTagCodes.length = 0 := by
          have e1 := bc_len7
          have e2 := hd_len7
          omega
        rw [hq] at h5
        unfold occursAt at h5
        rw [List.drop_zero] at h5
        exact bc_npre_hd h5
      · exfalso
        rcases lt_or_le (headCodes.length - (p - a.length - styleTagCodes.length))
            bodyCloseCodes.length with hm | hm
        · exact bc_take_in_hd _ hm (by omega) h6
        · rw [List.take_of_length_le hm] at h6
          exact bc_nsuf_hd h6
      · right
        omega

/-! ## Claims -/

/-- C1: for every request whose parsed URL authority (lowercased) is in the
whitelist set, `should_block` — when it actually evaluates the request,
i.e. when there is no fresh cache entry for the `(method, url)` key —
returns not-blocked with no matched rule, regardless of the blacklist and of
every indexed or fallback rule in the engine. -/
theorem c1_whitelist_not_blocked (e : FilterEngine) (now : Nat) (url method : String)
    (headers : Option (List (String × String))) (content_type : Option String)
    (hmiss : cacheHit e now (method ++ ":" ++ url) = false)
    (hwl : e.whitelist_domains.contains (pyLower (urlparse url).netloc) = true) :
    (should_block e now url method headers content_type).1 = (false, none) := by
  have hwl2 : pyLower (urlparse url).netloc ∈ e.whitelist_domains := by simpa using hwl
  unfold should_block
  simp [hmiss, hwl2]

/-- C1 witness: a domain that is simultaneously whitelisted, blacklisted and
covered by a matching domain-indexed block rule is still not blocked. -/
theorem c1_witness :
    (should_block engineWlAndBl 0 "http://ads.example.com/x" "GET" none none).1 =
      (false, none) :=
  c1_whitelist_not_blocked engineWlAndBl 0 "http://ads.example.com/x" "GET" none none
    (by decide) (by decide)

/-- C4: for every request whose parsed URL authority (lowercased) is in the
blacklist set and not in the whitelist set, `should_block` — absent a fresh
cache entry for the `(method, url)` key — returns blocked. -/
theorem c4_blacklist_blocked (e : FilterEngine) (now : Nat) (url method : String)
    (headers : Option (List (String × String))) (content_type : Option String)
    (hmiss : cacheHit e now (method ++ ":" ++ url) = false)
    (hwl : e.whitelist_domains.contains (pyLower (urlparse url).netloc) = false)
    (hbl : e.blacklist_domains.contains (pyLower (urlparse url).netloc) = true) :
    (should_block e now url method headers content_type).1 = (true, none) := by
  have hwl2 : pyLower (urlparse url).netloc ∉ e.whitelist_domains := by simpa using hwl
  have hbl2 : pyLower (urlparse url).netloc ∈ e.blacklist_domains := by simpa using hbl
  unfold should_block
  simp [hmiss, hwl2, hbl2]

/-- C4 witness. -/
theorem c4_witness :
    (should_block engineBlOnly 0 "http://ads.example.com/x" "GET" none none).1 =
      (true, none) :=
  c4_blacklist_blocked engineBlOnly 0 "http://ads.example.com/x" "GET" none none
    (by decide) (by decide) (by decide)

/-- C2 counterexample: the claim asserts a rule lands in at most one of the
four tiers, but a rule with both `domain` and `path` set is inserted into
both the domain index and the path index by a single `add_rule` call. -/
theorem c2_counterexample :
    dictGet (add_rule engineEmpty ruleDomAndPath).domain_rules "d.com" =
      some [ruleDomAndPath] ∧
    dictGet (add_rule engineEmpty ruleDomAndPath).path_rules "/x" =
      some [ruleDomAndPath] := by
  decide

/-- C2 (amended): at insertion time each tier membership is determined
independently by its own condition — the rule is appended to the domain
index iff `domain` is truthy, to the path index iff `path` is truthy, to the
regex index iff the pattern contains a regex metacharacter and compiles, and
it is always appended to the ordered rule list (from which the fallback pass
draws the rules with no domain, no path and no metacharacter); a rule
satisfying several conditions is indexed several times. -/
theorem c2_insertion_classification (e : FilterEngine) (rule : FilterRule) :
    ((add_rule e rule).rules = e.rules ++ [rule]) ∧
    (truthyS rule.domain = false → (add_rule e rule).domain_rules = e.domain_rules) ∧
    (truthyS rule.domain = true →
      dictGet (add_rule e rule).domain_rules (rule.domain.getD "") =
        some ((dictGet e.domain_rules (rule.domain.getD "")).getD [] ++ [rule])) ∧
    (truthyS rule.path = false → (add_rule e rule).path_rules = e.path_rules) ∧
    (truthyS rule.path = true →
      dictGet (add_rule e rule).path_rules (rule.path.getD "") =
        some ((dictGet e.path_rules (rule.path.getD "")).getD [] ++ [rule])) ∧
    (hasRegexMeta rule.pattern = false → (add_rule e rule).regex_rules = e.regex_rules) ∧
    (∀ re, hasRegexMeta rule.pattern = true → compileRe rule.pattern = some re →
      (add_rule e rule).regex_rules = e.regex_rules ++ [(re, rule)]) := by
  unfold add_rule
  have hd_keeps := add_rule_domain_keeps { e with rules := e.rules ++ [rule] } rule
  have hp_keeps := add_rule_path_keeps
    (add_rule_domain { e with rules := e.rules ++ [rule] } rule) rule
  have hr_keeps := add_rule_regex_keeps
    (add_rule_path (add_rule_domain { e with rules := e.rules ++ [rule] } rule) rule) rule
  refine ⟨?_, ?_, ?_, ?_, ?_, ?_, ?_⟩
  · rw [hr_keeps.2.2, hp_keeps.2.2, hd_keeps.2.2]
  · intro h
    rw [hr_keeps.1, hp_keeps.1, add_rule_domain_of_falsy _ _ h]
  · intro h
    rw [hr_keeps.1, hp_keeps.1]
    have := add_rule_domain_of_truthy { e with rules := e.rules ++ [rule] } rule h
    simpa using this
  · intro h
    rw [hr_keeps.2.1, add_rule_path_of_falsy _ _ h, hd_keeps.1]
  · intro h
    rw [hr_keeps.2.1]
    have := add_rule_path_of_truthy
      (add_rule_domain { e with rules := e.rules ++ [rule] } rule) rule h
    rw [this, hd_keeps.1]
  · intro h
    rw [add_rule_regex_of_nometa _ _ h, hp_keeps.2.1, hd_keeps.2.1]
  · intro re hm hc
    rw [add_rule_regex_of_compiled _ _ _ hm hc, hp_keeps.2.1, hd_keeps.2.1]

/-- C2 witness: a plain pattern rule (no domain, no path, no metacharacter)
is appended to the rule list and leaves every index unchanged. -/
theorem c2_witness :
    (add_rule engineEmpty ruleLiteralTier).rules = [ruleLiteralTier] ∧
    (add_rule engineEmpty ruleLiteralTier).domain_rules = [] ∧
    (add_rule engineEmpty ruleLiteralTier).path_rules = [] ∧
    (add_rule engineEmpty ruleLiteralTier).regex_rules = [] := by
  have h := c2_insertion_classification engineEmpty ruleLiteralTier
  refine ⟨by simpa using h.1, by simpa using h.2.1 (by decide),
    by simpa using h.2.2.2.1 (by decide), by simpa using h.2.2.2.2.2.1 (by decide)⟩

/-- C6 counterexample: `_match_rule` guards the header check with
`if rule.headers and headers:`, so a rule that lists required headers
accepts a request that supplies no headers at all. -/
theorem c6_counterexample :
    match_rule ruleNeedsHeader "http://x.com/" "GET" none none = true := by
  decide

/-- C6 (amended): the header constraint is enforced only when the caller
supplies a truthy (non-empty) header mapping — then every listed name must
be present with an exactly equal value; when the caller supplies no headers,
the constraint is skipped and the rule matches (if its other guards pass). -/
theorem c6_header_matching :
    (∀ rule url method hs content_type, hs ≠ [] →
      match_rule rule url method (some hs) content_type = true →
      ∀ kv ∈ rule.headers.getD [], dictGet hs kv.1 = some kv.2) ∧
    (∀ rule url method content_type, rule.enabled = true →
      truthyS rule.method = false → truthyS rule.content_type = false →
      match_rule rule url method none content_type = true) := by
  constructor
  · intro rule url method hs ct hne hm kv hkv
    unfold match_rule at hm
    split_ifs at hm with h1 h2 h3 h4
    · rw [List.all_eq_true] at hm
      have := hm kv hkv
      simpa using this
    · have hhs : truthyD (some hs) = true := by
        cases hs with
        | nil => exact absurd rfl hne
        | cons a t => simp [truthyD]
      have hrh : truthyD rule.headers = false := by
        by_contra hc
        rw [Bool.not_eq_false] at hc
        simp [hc, hhs] at h4
      rw [truthyD_false_getD rule.headers hrh] at hkv
      exact absurd hkv (List.not_mem_nil kv)
  · intro rule url method ct hen hme hct
    unfold match_rule
    simp [hen, hme, hct, truthyD]

/-- C6 witness for the amended statement: with headers supplied, a matching
rule forces the listed header to be present with the listed value. -/
theorem c6_witness :
    dictGet [("x-token", "v")] "x-token" = some "v" :=
  (c6_header_matching.1 ruleNeedsHeader "http://x.com/" "GET" [("x-token", "v")] none
    (by decide) (by decide)) ("x-token", "v") (by decide)

/-- C3 counterexample: the first call hits a cache entry that expires at
time 5 and returns not-blocked; a blacklist entry is added; the second call
2 seconds later (well inside the 300-second TTL window counted from the
first call) finds the entry expired, re-evaluates, and returns blocked. -/
theorem c3_counterexample :
    (should_block engineStaleCache 4 "http://a.com/" "GET" none none).1 = (false, none) ∧
    (should_block
        (applyOp (should_block engineStaleCache 4 "http://a.com/" "GET" none none).2
          (AdminOp.blacklistDomain "a.com"))
        6 "http://a.com/" "GET" none none).1 = (true, none) ∧
    6 < 4 + 300 := by
  decide

/-- C3 (amended): if the first `should_block` call finds no fresh cache
entry for its `(method, url)` key — so it computes a verdict and stores it —
then any second call within the 300-second TTL window returns the same
verdict with no matched rule, regardless of the rules, whitelist entries and
blacklist entries added in between. -/
theorem c3_cache_stability (e : FilterEngine) (now t2 : Nat) (url method : String)
    (headers : Option (List (String × String))) (content_type : Option String)
    (ops : List AdminOp)
    (httl : e.cache_ttl = 300)
    (hmiss : cacheHit e now (method ++ ":" ++ url) = false)
    (ht : t2 < now + 300) :
    (should_block (applyOps (should_block e now url method headers content_type).2 ops)
        t2 url method headers content_type).1 =
      ((should_block e now url method headers content_type).1.1, none) := by
  have hstore := should_block_stores e now url method headers content_type hmiss
  have hker := applyOps_cache (should_block e now url method headers content_type).2 ops
  have hc : dictGet (applyOps (should_block e now url method headers content_type).2
      ops).cache (method ++ ":" ++ url) =
      some (should_block e now url method headers content_type).1.1 := by
    rw [hker.1]; exact hstore.1
  have hex : dictGet (applyOps (should_block e now url method headers content_type).2
      ops).cache_expiry (method ++ ":" ++ url) = some (now + 300) := by
    rw [hker.2]; rw [hstore.2]; rw [httl]
  have hhit : cacheHit (applyOps (should_block e now url method headers content_type).2 ops)
      t2 (method ++ ":" ++ url) = true := by
    simp [cacheHit, hc, hex, ht]
  conv_lhs => rw [should_block]
  simp [hhit, hc]

/-- C3 witness for the amended statement: a blacklisted domain stays blocked
on the second call even after being whitelisted in between. -/
theorem c3_witness :
    (should_block
        (applyOps (should_block engineBlOnly 0 "http://ads.example.com/x" "GET" none none).2
          [AdminOp.whitelistDomain "ads.example.com"])
        10 "http://ads.example.com/x" "GET" none none).1 =
      ((should_block engineBlOnly 0 "http://ads.example.com/x" "GET" none none).1.1, none) :=
  c3_cache_stability engineBlOnly 0 10 "http://ads.example.com/x" "GET" none none
    [AdminOp.whitelistDomain "ads.example.com"] (by decide) (by decide) (by decide)

theorem charLower_not_upper (c : Char) : isUpperAscii (charLower c) = false := by
  unfold charLower
  by_cases h : 65 ≤ c.toNat ∧ c.toNat ≤ 90
  · rw [if_pos h]
    have hv : (c.toNat + 32).isValidChar := Or.inl (by omega)
    have ht : (Char.ofNat (c.toNat + 32)).toNat = c.toNat + 32 := by
      unfold Char.ofNat
      rw [dif_pos hv]
      unfold Char.ofNatAux Char.toNat
      simp [UInt32.toNat]
    unfold isUpperAscii
    rw [ht]
    simp only [Bool.and_eq_false_iff, decide_eq_false_iff_not]
    right
    omega
  · rw [if_neg h]
    unfold isUpperAscii
    simp only [Bool.and_eq_false_iff, decide_eq_false_iff_not]
    omega

/-- C9: `should_block` lowercases the parsed authority before comparison
while whitelist/blacklist entries are stored verbatim, so an entry
containing an ASCII uppercase letter can never equal the compared authority
of any request, while a URL whose authority differs from an all-lowercase
entry only by letter case does match it. -/
theorem c9_case_handling :
    (∀ entry url, entry.data.any isUpperAscii = true →
      pyLower (urlparse url).netloc ≠ entry) ∧
    (should_block engineBlOnly 0 "http://ADS.EXAMPLE.COM/x" "GET" none none).1 =
      (true, none) := by
  constructor
  · intro entry url hup heq
    have hdat : entry.data = (urlparse url).netloc.data.map charLower := by
      rw [← heq]
      rfl
    rw [hdat, List.any_eq_true] at hup
    obtain ⟨c, hc, hlc⟩ := hup
    rw [List.mem_map] at hc
    obtain ⟨c0, _, rfl⟩ := hc
    rw [charLower_not_upper c0] at hlc
    exact Bool.false_ne_true hlc
  · decide

/-- C9 witness: the first conjunct applied to a mixed-case entry. -/
theorem c9_witness :
    pyLower (urlparse "http://ads.example.com/").netloc ≠ "ADS.example.com" :=
  c9_case_handling.1 "ADS.example.com" "http://ads.example.com/" (by decide)

/-- C5 counterexample: `dnt` is set unconditionally at the end of
`_add_stealth_headers`, overwriting an existing value — contradicting the
claim that `dnt` is filled in only when absent and that present headers keep
their values. -/
theorem c5_counterexample :
    hGet [("dnt", "0")] "dnt" = some "0" ∧
    hGet (add_stealth_headers [("dnt", "0")]) "dnt" = some "1" := by
  exact ⟨by decide, by decide⟩

/-- C5 (amended): the stealth-header step strips the five proxy-identifying
headers; it fills in `user-agent`, `accept`, `accept-language` and
`accept-encoding` only when absent (present values are kept); it
unconditionally sets `dnt`, `connection` and `upgrade-insecure-requests` to
fixed values, overwriting any existing ones; every header outside these
twelve names keeps its original value. -/
theorem c5_stealth_headers (hs : List (String × String)) :
    hGet (add_stealth_headers hs) "user-agent" =
      some ((hGet hs "user-agent").getD defaultUserAgent) ∧
    hGet (add_stealth_headers hs) "accept" =
      some ((hGet hs "accept").getD defaultAccept) ∧
    hGet (add_stealth_headers hs) "accept-language" =
      some ((hGet hs "accept-language").getD defaultAcceptLanguage) ∧
    hGet (add_stealth_headers hs) "accept-encoding" =
      some ((hGet hs "accept-encoding").getD defaultAcceptEncoding) ∧
    hGet (add_stealth_headers hs) "dnt" = some "1" ∧
    hGet (add_stealth_headers hs) "connection" = some "keep-alive" ∧
    hGet (add_stealth_headers hs) "upgrade-insecure-requests" = some "1" ∧
    (∀ n ∈ headersToRemove, hGet (add_stealth_headers hs) n = none) ∧
    (∀ k, (∀ n ∈ stealthTouchedNames, pyLower k ≠ pyLower n) →
      hGet (add_stealth_headers hs) k = hGet hs k) := by
  unfold add_stealth_headers
  refine ⟨?_, ?_, ?_, ?_, ?_, ?_, ?_, ?_, ?_⟩
  · rw [hGet_hSet_other _ _ _ _ (by decide), hGet_hSet_other _ _ _ _ (by decide),
      hGet_hSet_other _ _ _ _ (by decide), hGet_condSet_other _ _ _ _ (by decide),
      hGet_condSet_other _ _ _ _ (by decide), hGet_condSet_other _ _ _ _ (by decide),
      hGet_condSet_self, hGet_strip_other _ _ (by decide)]
  · rw [hGet_hSet_other _ _ _ _ (by decide), hGet_hSet_other _ _ _ _ (by decide),
      hGet_hSet_other _ _ _ _ (by decide), hGet_condSet_other _ _ _ _ (by decide),
      hGet_condSet_other _ _ _ _ (by decide), hGet_condSet_self,
      hGet_condSet_other _ _ _ _ (by decide), hGet_strip_other _ _ (by decide)]
  · rw [hGet_hSet_other _ _ _ _ (by decide), hGet_hSet_other _ _ _ _ (by decide),
      hGet_hSet_other _ _ _ _ (by decide), hGet_condSet_other _ _ _ _ (by decide),
      hGet_condSet_self, hGet_condSet_other _ _ _ _ (by decide),
      hGet_condSet_other _ _ _ _ (by decide), hGet_strip_other _ _ (by decide)]
  · rw [hGet_hSet_other _ _ _ _ (by decide), hGet_hSet_other _ _ _ _ (by decide),
      hGet_hSet_other _ _ _ _ (by decide), hGet_condSet_self,
      hGet_condSet_other _ _ _ _ (by decide), hGet_condSet_other _ _ _ _ (by decide),
      hGet_condSet_other _ _ _ _ (by decide), hGet_strip_other _ _ (by decide)]
  · rw [hGet_hSet_other _ _ _ _ (by decide), hGet_hSet_other _ _ _ _ (by decide),
      hGet_hSet_self _ _ _ _ rfl]
  · rw [hGet_hSet_other _ _ _ _ (by decide), hGet_hSet_self _ _ _ _ rfl]
  · rw [hGet_hSet_self _ _ _ _ rfl]
  · intro n hn
    simp only [headersToRemove, List.mem_cons, List.not_mem_nil, or_false] at hn
    rcases hn with rfl | rfl | rfl | rfl | rfl <;>
      rw [hGet_hSet_other _ _ _ _ (by decide), hGet_hSet_other _ _ _ _ (by decide),
        hGet_hSet_other _ _ _ _ (by decide), hGet_condSet_other _ _ _ _ (by decide),
        hGet_condSet_other _ _ _ _ (by decide), hGet_condSet_other _ _ _ _ (by decide),
        hGet_condSet_other _ _ _ _ (by decide)] <;>
      exact hGet_strip_removed hs _ (by decide)
  · intro k hk
    rw [hGet_hSet_other _ _ _ _ (hk "upgrade-insecure-requests" (by decide)),
      hGet_hSet_other _ _ _ _ (hk "connection" (by decide)),
      hGet_hSet_other _ _ _ _ (hk "dnt" (by decide)),
      hGet_condSet_other _ _ _ _ (hk "accept-encoding" (by decide)),
      hGet_condSet_other _ _ _ _ (hk "accept-language" (by decide)),
      hGet_condSet_other _ _ _ _ (hk "accept" (by decide)),
      hGet_condSet_other _ _ _ _ (hk "user-agent" (by decide)),
      hGet_strip_other _ _ (fun n hn =>
        hk n (List.mem_append_left _ hn))]

/-- C5 witness for the amended statement: a request supplying its own
`user-agent` and an `x-custom` header keeps both, while `dnt` gets the fixed
value. -/
theorem c5_witness :
    hGet (add_stealth_headers [("User-Agent", "curl/8"), ("x-custom", "z")]) "user-agent" =
      some ((hGet [("User-Agent", "curl/8"), ("x-custom", "z")] "user-agent").getD
        defaultUserAgent) ∧
    hGet (add_stealth_headers [("User-Agent", "curl/8"), ("x-custom", "z")]) "dnt" =
      some "1" ∧
    hGet (add_stealth_headers [("User-Agent", "curl/8"), ("x-custom", "z")]) "x-custom" =
      hGet [("User-Agent", "curl/8"), ("x-custom", "z")] "x-custom" := by
  refine ⟨(c5_stealth_headers [("User-Agent", "curl/8"), ("x-custom", "z")]).1,
    (c5_stealth_headers [("User-Agent", "curl/8"), ("x-custom", "z")]).2.2.2.2.1,
    (c5_stealth_headers [("User-Agent", "curl/8"), ("x-custom", "z")]).2.2.2.2.2.2.2.2
      "x-custom" (by decide)⟩

/-- C10: a pattern containing a metacharacter is regex-classified and the
regex tier matches the URL case-insensitively (`re.IGNORECASE`), while a
metacharacter-free pattern is literal-fallback-classified and matched
case-sensitively by substring containment — so a URL differing from the
pattern only by case is blocked under the regex tier but not under the
literal tier. -/
theorem c10_tier_case_dependence :
    hasRegexMeta ruleRegexTier.pattern = true ∧
    engineRegexTier.regex_rules.map (fun rr => rr.2) = [ruleRegexTier] ∧
    (should_block engineRegexTier 0 "http://x.com/TRACKER.COM" "GET" none none).1 =
      (true, some ruleRegexTier) ∧
    hasRegexMeta ruleLiteralTier.pattern = false ∧
    engineLiteralTier.regex_rules = [] ∧
    (should_block engineLiteralTier 0 "http://x.com/TRACKERXCOM" "GET" none none).1 =
      (false, none) ∧
    (should_block engineLiteralTier 0 "http://x.com/trackerxcom" "GET" none none).1 =
      (true, some ruleLiteralTier) := by
  refine ⟨by decide, by decide, by decide, by decide, by decide, by decide, by decide⟩

/-- C7: a byte sequence that does not decode as UTF-8 is returned
byte-identical by the content rewriter: `process_html` performs no injection
and surfaces no error. -/
theorem c7_decode_failure_identity (content : List Nat) (url : String)
    (h : utf8Decode content = none) :
    process_html content url = content := by
  unfold process_html
  rw [h]

/-- C7 witness: the lone byte 255 is not valid UTF-8 and passes through. -/
theorem c7_witness : process_html [255] "http://e.com/" = [255] :=
  c7_decode_failure_identity [255] "http://e.com/" (by decide)

/-- C8: on a UTF-8-decodable body whose decoded text contains both
`</head>` and `</body>` (and neither of the two exact tag blocks the
rewriter injects), `process_html` re-encodes the decoded text with the
style tag and the script tag each occurring exactly once, and the output
is strictly longer than the input. -/
theorem c8_injects_once (content : List Nat) (url : String) (codes : List Nat)
    (hdec : utf8Decode content = some codes)
    (hH : headCodes <:+: codes)
    (hP : bodyCloseCodes <:+: codes)
    (hnS : ¬ styleTagCodes <:+: codes)
    (hnT : ¬ scriptTagCodes <:+: codes) :
    process_html content url = utf8Encode (processCodes codes) ∧
    countOccur styleTagCodes (processCodes codes) = 1 ∧
    countOccur scriptTagCodes (processCodes codes) = 1 ∧
    content.length < (process_html content url).length := by
  have hph : process_html content url = utf8Encode (processCodes codes) := by
    unfold process_html
    rw [hdec]
  -- Style step: the CSS is non-empty and `</head>` is present, so the style
  -- tag is inserted before the first `</head>`.
  obtain ⟨a, b, hsp, hrw, hmin1⟩ :=
    @replaceFirst_spec Nat instDecidableEqNat headCodes (styleTagCodes ++ headCodes)
      hd_ne_nil codes hH
  have hcodes2 : codes = a ++ (headCodes ++ b) := by
    rw [hsp, List.append_assoc]
  have hingest : injectStyle codes =
      replaceFirstL headCodes (styleTagCodes ++ headCodes) codes := by
    unfold injectStyle
    rw [if_neg css_nonempty, if_pos (hasInfixB_iff.mpr hH)]
  have hstyled : injectStyle codes = a ++ (styleTagCodes ++ (headCodes ++ b)) := by
    rw [hingest, hrw]
    simp [List.append_assoc]
  -- The original fragments around `</head>` contain neither injected tag.
  have hapre : a <+: codes := by
    rw [hcodes2]
    exact List.prefix_append _ _
  have hbsuf : b <:+ codes := by
    rw [hcodes2]
    exact (List.suffix_append headCodes b).trans (List.suffix_append a _)
  have hnSa : ¬ styleTagCodes <:+: a := fun h2 => hnS (h2.trans hapre.isInfix)
  have hnSb : ¬ styleTagCodes <:+: b := fun h2 => hnS (h2.trans hbsuf.isInfix)
  have hnTa : ¬ scriptTagCodes <:+: a := fun h2 => hnT (h2.trans hapre.isInfix)
  have hnTb : ¬ scriptTagCodes <:+: b := fun h2 => hnT (h2.trans hbsuf.isInfix)
  -- `</body>` survives the style insertion, so the script step inserts the
  -- script tag before the first `</body>` of the styled document.
  have hPs : bodyCloseCodes <:+: a ++ (styleTagCodes ++ (headCodes ++ b)) := by
    apply bodyClose_survives
    rw [← hcodes2]
    exact hP
  have hinjscript : injectScript (a ++ (styleTagCodes ++ (headCodes ++ b))) =
      replaceFirstL bodyCloseCodes (scriptTagCodes ++ bodyCloseCodes)
        (a ++ (styleTagCodes ++ (headCodes ++ b))) := by
    unfold injectScript
    rw [if_neg js_nonempty, if_pos (hasInfixB_iff.mpr hPs)]
  obtain ⟨a2, b2, hsp2, hrw2, hmin2⟩ :=
    @replaceFirst_spec Nat instDecidableEqNat bodyCloseCodes
      (scriptTagCodes ++ bodyCloseCodes) bc_ne_nil
      (a ++ (styleTagCodes ++ (headCodes ++ b))) hPs
  have hprocess : processCodes codes = a2 ++ (scriptTagCodes ++ bodyCloseCodes) ++ b2 := by
    unfold processCodes
    rw [hstyled, hinjscript, hrw2]
  -- The script tag occurs exactly once: it occurs in neither fragment of
  -- the styled document around the insertion point.
  have hTstyled : ¬ scriptTagCodes <:+: a ++ (styleTagCodes ++ (headCodes ++ b)) :=
    scriptTag_notin_styled a b hnTa hnTb
  have ha2pre : a2 <+: a ++ (styleTagCodes ++ (headCodes ++ b)) := by
    rw [hsp2]
    exact (List.prefix_append a2 bodyCloseCodes).trans
      (List.prefix_append (a2 ++ bodyCloseCodes) b2)
  have hPb2suf : bodyCloseCodes ++ b2 <:+ a ++ (styleTagCodes ++ (headCodes ++ b)) := by
    rw [hsp2, List.append_assoc]
    exact List.suffix_append a2 _
  have hnTa2 : ¬ scriptTagCodes <:+: a2 := fun h2 => hTstyled (h2.trans ha2pre.isInfix)
  have hnTpb2 : ¬ scriptTagCodes <:+: bodyCloseCodes ++ b2 :=
    fun h2 => hTstyled (h2.trans hPb2suf.isInfix)
  have hcountT : countOccur scriptTagCodes (processCodes codes) = 1 := by
    have hsh : processCodes codes = a2 ++ scriptTagCodes ++ (bodyCloseCodes ++ b2) := by
      rw [hprocess]
      simp [List.append_assoc]
    rw [hsh]
    exact countOccur_insert_one sc_ne_nil sc_drop_sc sc_take_sc hnTa2 hnTpb2
  -- The style tag occurs exactly once: the `</body>` insertion point lies
  -- entirely left or entirely right of the inserted style tag.
  have hocc2 : occursAt bodyCloseCodes (a ++ (styleTagCodes ++ (headCodes ++ b)))
      a2.length := by
    unfold occursAt
    rw [hsp2, List.append_assoc, List.drop_left]
    exact List.prefix_append _ _
  have hcountS : countOccur styleTagCodes (processCodes codes) = 1 := by
    rcases bodyClose_position a b a2.length hocc2 with hA | hB
    · -- the script tag went in strictly left of the style tag
      have ha2Ppre : a2 ++ bodyCloseCodes <+: a := by
        have h1 : a2 ++ bodyCloseCodes <+: a ++ (styleTagCodes ++ (headCodes ++ b)) := by
          rw [hsp2]
          exact List.prefix_append _ _
        exact List.prefix_of_prefix_length_le h1 (List.prefix_append a _)
          (by rw [List.length_append]; exact hA)
      obtain ⟨a3, ha3⟩ := ha2Ppre
      have h1 : (a2 ++ bodyCloseCodes) ++ b2 =
          (a2 ++ bodyCloseCodes) ++ (a3 ++ (styleTagCodes ++ (headCodes ++ b))) := by
        rw [← List.append_assoc (a2 ++ bodyCloseCodes) a3, ha3, ← hsp2]
      have hb2 := List.append_cancel_left h1
      have ha2a : a2 <+: a := by
        rw [← ha3]
        exact (List.prefix_append a2 bodyCloseCodes).trans
          (List.prefix_append (a2 ++ bodyCloseCodes) a3)
      have ha3a : a3 <:+ a := by
        rw [← ha3]
        exact List.suffix_append _ a3
      have hnSa2 : ¬ styleTagCodes <:+: a2 := fun h2 => hnSa (h2.trans ha2a.isInfix)
      have hnSa3 : ¬ styleTagCodes <:+: a3 := fun h2 => hnSa (h2.trans ha3a.isInfix)
      have hx := styleTag_notin_scripted a2 a3 hnSa2 hnSa3
      have hy := styleTag_notin_headed b hnSb
      have hsh : processCodes codes =
          (a2 ++ (scriptTagCodes ++ (bodyCloseCodes ++ a3))) ++ styleTagCodes ++
            (headCodes ++ b) := by
        rw [hprocess, hb2]
        simp [List.append_assoc]
      rw [hsh]
      exact countOccur_insert_one st_ne_nil st_drop_st st_take_st hx hy
    · -- the script tag went in strictly right of the style tag
      have haSHpre : a ++ styleTagCodes ++ headCodes <+: a2 := by
        have h1 : a ++ styleTagCodes ++ headCodes <+:
            a ++ (styleTagCodes ++ (headCodes ++ b)) := by
          have he : a ++ (styleTagCodes ++ (headCodes ++ b)) =
              (a ++ styleTagCodes ++ headCodes) ++ b := by
            simp [List.append_assoc]
          rw [he]
          exact List.prefix_append _ b
        exact List.prefix_of_prefix_length_le h1 ha2pre
          (by rw [List.length_append, List.length_append]; omega)
      obtain ⟨b1, hb1⟩ := haSHpre
      have e1 : (a ++ styleTagCodes ++ headCodes) ++ b =
          a ++ (styleTagCodes ++ (headCodes ++ b)) := by
        simp [List.append_assoc]
      have e2 : (a ++ styleTagCodes ++ headCodes) ++ (b1 ++ (bodyCloseCodes ++ b2)) =
          a2 ++ bodyCloseCodes ++ b2 := by
        rw [← hb1]
        simp [List.append_assoc]
      have h3 : (a ++ styleTagCodes ++ headCodes) ++ b =
          (a ++ styleTagCodes ++ headCodes) ++ (b1 ++ (bodyCloseCodes ++ b2)) := by
        rw [e1, e2, hsp2]
      have hbB := List.append_cancel_left h3
      have hb1b : b1 <+: b := by
        rw [hbB]
        exact List.prefix_append _ _
      have hb2b : b2 <:+ b := by
        rw [hbB]
        exact (List.suffix_append bodyCloseCodes b2).trans (List.suffix_append b1 _)
      have hnSb1 : ¬ styleTagCodes <:+: b1 := fun h2 => hnSb (h2.trans hb1b.isInfix)
      have hnSb2 : ¬ styleTagCodes <:+: b2 := fun h2 => hnSb (h2.trans hb2b.isInfix)
      have hz := styleTag_notin_scripted b1 b2 hnSb1 hnSb2
      have hy := styleTag_notin_headed
        (b1 ++ (scriptTagCodes ++ (bodyCloseCodes ++ b2))) hz
      have hsh : processCodes codes =
          a ++ styleTagCodes ++
            (headCodes ++ (b1 ++ (scriptTagCodes ++ (bodyCloseCodes ++ b2)))) := by
        rw [hprocess, ← hb1]
        simp [List.append_assoc]
      rw [hsh]
      exact countOccur_insert_one st_ne_nil st_drop_st st_take_st hnSa hy
  -- Length growth: the output re-encodes the styled-and-scripted text, which
  -- extends the decoded input by both (non-empty) tag encodings.
  have hlt : content.length < (process_html content url).length := by
    have hcontent : utf8Encode codes = content := utf8Decode_encode content codes hdec
    have hcl := congrArg (fun l => (utf8Encode l).length) hcodes2
    simp only [utf8Encode_append, List.length_append, hcontent] at hcl
    have hpl := congrArg (fun l => (utf8Encode l).length) hprocess
    simp only [utf8Encode_append, List.length_append] at hpl
    have hsl := congrArg (fun l => (utf8Encode l).length) hsp2
    simp only [utf8Encode_append, List.length_append] at hsl
    have hSpos := utf8Encode_length_pos styleTagCodes st_ne_nil
    have hTpos := utf8Encode_length_pos scriptTagCodes sc_ne_nil
    rw [hph]
    omega
  exact ⟨hph, hcountS, hcountT, hlt⟩

/-- C8 witness: a small complete HTML document gets both tags exactly once
and grows strictly. -/
theorem c8_witness :
    process_html c8bytes "http://e.com/" = utf8Encode (processCodes c8bytes) ∧
    countOccur styleTagCodes (processCodes c8bytes) = 1 ∧
    countOccur scriptTagCodes (processCodes c8bytes) = 1 ∧
    c8bytes.length < (process_html c8bytes "http://e.com/").length :=
  c8_injects_once c8bytes "http://e.com/" c8bytes (by decide) (by decide) (by decide)
    (by decide) (by decide)

end Oblivion
